import Mathlib

/-!
Verification of the `rknazo.anura` flag library: a shallow embedding of
`crypto.py` (the `SimpleCrypter` substitution/permutation cipher),
`flag.py` (the `Flag` / `ValidatableFlag` records), `uuid.py` (the
UUID-like binary-to-text codec) and `utils.py` (flag generation and
reconstruction), together with proofs and refutations of the stated
properties of those functions.

Bytes are modelled as `List Nat` (each element a byte value `< 256`;
the bound is carried as an explicit hypothesis where a property needs it,
since Python's `bytes` type enforces it by construction).  Python's
`random.Random(password)` and `hashlib.sha1` are external primitives of
the standard library, not code of this repository; they are modelled
abstractly by the structures `RandModel` and `Sha1Model`, whose fields
record exactly the guarantees the library documents (a `sample` is a
without-replacement draw of the requested size, a digest has 20 bytes,
and both are deterministic functions of their inputs).
-/

namespace Anura

/-- Error kind raised by the library.  `valueError` models Python's builtin
`ValueError` (structural / malformed input).  `validationFailed` is
modelled from the spec: the class `ValidationFailed` lives in
`rknazo/anura/exc.py`, which is not part of the provided sources; per the
spec's error taxonomy it is a validation-failure error kind kept distinct
from the malformed-input kind. -/
inductive Err where
  | valueError (msg : String) : Err
  | validationFailed (msg : String) : Err
deriving DecidableEq

/-- Python `bytes.rstrip(b"\x00")`: remove trailing zero bytes. -/
def rstripZero (l : List Nat) : List Nat :=
  (l.reverse.dropWhile (· == 0)).reverse

/-- Python `int.to_bytes(length, "big")` on a nonnegative value (big-endian,
fixed width; the callers mask the value first so it always fits). -/
def toBytesBE : Nat → Nat → List Nat
  | 0, _ => []
  | n + 1, v => toBytesBE n (v / 256) ++ [v % 256]

/-- Model of Python's `random.Random(password)` as used by `crypto.py` and
`utils.py`.  A `SimpleCrypter.__init__` seeded with `password` first draws
`rand.sample(range(length), k=length)` (result: `sample1 password length`)
and then `rand.sample(range(0xFF), k=length)` (result:
`sample2 password length`); `_derive_key` seeded with `password` draws
`rand.choices(range(0xFF), k=n)` (result: `choices password n`).  The
propositional fields record the documented behaviour of those stdlib
calls: `sample` returns a without-replacement draw from its population
(so a full-size sample of `range(length)` is a permutation of it), and
`choices` returns `k` members of its population.  Everything is a pure
function of `(password, size)`, which models the documented determinism
of `random.Random` under a fixed seed. -/
structure RandModel (α : Type) where
  sample1 : α → Nat → List Nat
  sample2 : α → Nat → List Nat
  choices : α → Nat → List Nat
  sample1_perm : ∀ p n, (sample1 p n).Perm (List.range n)
  sample2_length : ∀ p n, n ≤ 255 → (sample2 p n).length = n
  sample2_nodup : ∀ p n, n ≤ 255 → (sample2 p n).Nodup
  sample2_mem : ∀ p n x, n ≤ 255 → x ∈ sample2 p n → x < 255
  choices_length : ∀ p n, (choices p n).length = n
  choices_mem : ∀ p n x, x ∈ choices p n → x < 255

/-- A concrete inhabitant of `RandModel`, used to evaluate the development
on closed inputs. -/
def trivRand (α : Type) : RandModel α where
  sample1 _ n := List.range n
  sample2 _ n := List.range n
  choices _ n := List.replicate n 0
  sample1_perm _ _ := List.Perm.refl _
  sample2_length _ _ _ := List.length_range _
  sample2_nodup _ _ _ := List.nodup_range _
  sample2_mem _ n x hn hx := lt_of_lt_of_le (List.mem_range.mp hx) hn
  choices_length _ _ := List.length_replicate _ _
  choices_mem _ n x hx := by
    have := List.eq_of_mem_replicate hx
    omega

/-- The state of a constructed `SimpleCrypter`: the fields `_shifts` and
`_keys` of `crypto.py`. -/
structure SimpleCrypter where
  shifts : List Nat
  keys : List Nat
deriving DecidableEq

/-- `SimpleCrypter.__init__(password, length)`.  Raises `ValueError` when
`length <= 0`.  Then `rand.sample(range(length), k=length)` always
succeeds (the sample size equals the population size), while
`rand.sample(range(0xFF), k=length)` raises `ValueError` ("Sample larger
than population or is negative") whenever `length > 255`, the population
size of `range(0xFF)`. -/
def SimpleCrypter.init {α : Type} (R : RandModel α) (password : α)
    (length : Int) : Except Err SimpleCrypter :=
  if length ≤ 0 then
    .error (.valueError "'length' should be a positive value.")
  else if 255 < length then
    .error (.valueError "Sample larger than population or is negative")
  else
    .ok { shifts := R.sample1 password length.toNat,
          keys := R.sample2 password length.toNat }

/-- One group of the XOR pass: `b ^ key for b, key in zip(cur, keys)`. -/
def xorChunk (keys group : List Nat) : List Nat :=
  (group.zip keys).map (fun p => p.1 ^^^ p.2)

/-- The per-group loop shared by `_apply_to`, the shift pass of `encrypt`
and the unshift pass of `decrypt`: apply `f` to `m` consecutive groups of
`k` bytes and concatenate the results. -/
def chunkApply (f : List Nat → List Nat) (k : Nat) : Nat → List Nat → List Nat
  | 0, _ => []
  | m + 1, data => f (data.take k) ++ chunkApply f k m (data.drop k)

/-- `SimpleCrypter._apply_to(data)`: requires the length of `data` to be a
multiple of the key length, then XORs each `key_length`-byte group
position-wise with `_keys`. -/
def SimpleCrypter.applyTo (c : SimpleCrypter) (data : List Nat) :
    Except Err (List Nat) :=
  if data.length % c.keys.length ≠ 0 then
    .error (.valueError "The length of 'data' should be multiples of the key length.")
  else
    .ok (chunkApply (xorChunk c.keys) c.keys.length
          (data.length / c.keys.length) data)

/-- The gather of the shift pass:
`bytes(encrypted[i + shift] for shift in shifts)` on one group. -/
def shiftGroup (shifts group : List Nat) : List Nat :=
  shifts.map (fun s => group.getD s 0)

/-- Python's tuple comparison on `(shift, byte)` pairs, as used by
`sorted(zip(shifts, group))`: lexicographic order. -/
def pairLe (a b : Nat × Nat) : Bool :=
  decide (a.1 < b.1 ∨ (a.1 = b.1 ∧ a.2 ≤ b.2))

/-- The inverse scatter of the decrypt pass on one group:
`bytes(byte for _, byte in sorted(zip(shifts, group)))`. -/
def unshiftGroup (shifts group : List Nat) : List Nat :=
  ((shifts.zip group).mergeSort pairLe).map (fun p => p.2)

/-- `SimpleCrypter.encrypt(data, padding)`: compute the zero padding needed
to reach the next multiple of the key length; if padding is needed but
disallowed, raise `ValueError`; otherwise append the padding, XOR via
`_apply_to`, and permute each group through `_shifts`. -/
def SimpleCrypter.encrypt (c : SimpleCrypter) (data : List Nat)
    (padding : Bool) : Except Err (List Nat) :=
  if (c.keys.length - data.length % c.keys.length) % c.keys.length ≠ 0 ∧
      padding = false then
    .error (.valueError "The length of 'data' should be multiples of the key length when 'padding' is set to False.")
  else
    match c.applyTo (data ++ List.replicate
        ((c.keys.length - data.length % c.keys.length) % c.keys.length) 0) with
    | .error e => .error e
    | .ok encrypted =>
        .ok (chunkApply (shiftGroup c.shifts) c.keys.length
          ((data ++ List.replicate
            ((c.keys.length - data.length % c.keys.length) % c.keys.length)
            0).length / c.keys.length) encrypted)

/-- `SimpleCrypter.decrypt(data, keep_null)`: requires length alignment,
inverts the gather of each group by sorting `zip(shifts, group)`, XORs via
`_apply_to`, and unless `keep_null` strips all trailing zero bytes. -/
def SimpleCrypter.decrypt (c : SimpleCrypter) (data : List Nat)
    (keep_null : Bool) : Except Err (List Nat) :=
  if data.length % c.keys.length ≠ 0 then
    .error (.valueError "The length of 'data' should be multiples of the key length.")
  else
    match c.applyTo (chunkApply (unshiftGroup c.shifts) c.keys.length
        (data.length / c.keys.length) data) with
    | .error e => .error e
    | .ok decrypted =>
        .ok (if keep_null then decrypted else rstripZero decrypted)

instance {ε α : Type} [DecidableEq ε] [DecidableEq α] : DecidableEq (Except ε α) :=
  fun x y =>
    match x, y with
    | .ok a, .ok b =>
        if h : a = b then isTrue (h ▸ rfl)
        else isFalse (fun hc => h (Except.ok.inj hc))
    | .error a, .error b =>
        if h : a = b then isTrue (h ▸ rfl)
        else isFalse (fun hc => h (Except.error.inj hc))
    | .ok _, .error _ => isFalse (fun hc => Except.noConfusion hc)
    | .error _, .ok _ => isFalse (fun hc => Except.noConfusion hc)

/-- A list of pairs carrying consecutive indices starting at `i`:
the shape `sorted(zip(shifts, group))` takes when `shifts` is a
permutation of the group's index range. -/
def tagFrom : Nat → List Nat → List (Nat × Nat)
  | _, [] => []
  | i, x :: xs => (i, x) :: tagFrom (i + 1) xs

theorem tagFrom_map_snd : ∀ (i : Nat) (l : List Nat),
    (tagFrom i l).map (fun p => p.2) = l
  | _, [] => rfl
  | i, x :: xs => by simp [tagFrom, tagFrom_map_snd (i + 1) xs]

theorem tagFrom_fst_ge : ∀ (i : Nat) (l : List Nat) (p : Nat × Nat),
    p ∈ tagFrom i l → i ≤ p.1
  | i, x :: xs, p, h => by
    rcases List.mem_cons.mp h with h | h
    · subst h; exact Nat.le_refl i
    · exact Nat.le_of_succ_le (tagFrom_fst_ge (i + 1) xs p h)

theorem tagFrom_pairwise : ∀ (i : Nat) (l : List Nat),
    (tagFrom i l).Pairwise (fun a b => a.1 < b.1)
  | _, [] => List.Pairwise.nil
  | i, x :: xs => by
    refine List.Pairwise.cons ?_ (tagFrom_pairwise (i + 1) xs)
    intro p hp
    exact Nat.lt_of_succ_le (tagFrom_fst_ge (i + 1) xs p hp)

theorem map_range'_eq_tagFrom : ∀ (l : List Nat) (i : Nat) (g : List Nat),
    (∀ j, j < l.length → l.getD j 0 = g.getD (i + j) 0) →
    (List.range' i l.length).map (fun t => (t, g.getD t 0)) = tagFrom i l
  | [], _, _, _ => rfl
  | x :: xs, i, g, h => by
    have h0 : g.getD i 0 = x := by
      have := h 0 (Nat.succ_pos _)
      simpa using this.symm
    have hrec := map_range'_eq_tagFrom xs (i + 1) g (by
      intro j hj
      have := h (j + 1) (by simpa using Nat.succ_lt_succ hj)
      simpa [Nat.add_assoc, Nat.add_comm 1 j, Nat.add_left_comm] using this)
    have hr : List.range' i (x :: xs).length = i :: List.range' (i + 1) xs.length := by
      simp [List.range'_succ]
    rw [hr, List.map_cons]
    show (i, g.getD i 0) :: _ = (i, x) :: tagFrom (i + 1) xs
    rw [h0, hrec]

/-- A stable sort whose comparator is compatible with a key function equals
any target list that is a permutation of the input and strictly sorted by
that key. -/
theorem mergeSort_eq_of_key_sorted {α κ : Type} [LinearOrder κ] (key : α → κ)
    (le : α → α → Bool)
    (htrans : ∀ a b c, le a b = true → le b c = true → le a c = true)
    (htotal : ∀ a b, (le a b || le b a) = true)
    (hcompat : ∀ a b, le a b = true → key a ≤ key b)
    {l target : List α} (hp : l.Perm target)
    (hs : target.Pairwise (fun a b => key a < key b)) :
    l.mergeSort le = target := by
  haveI : IsAntisymm α (fun a b => key a < key b) :=
    ⟨fun a b h h' => absurd (h.trans h') (lt_irrefl _)⟩
  have hperm : (l.mergeSort le).Perm target := (List.mergeSort_perm l le).trans hp
  have hndt : (target.map key).Nodup := by
    have : (target.map key).Pairwise (fun a b => a ≠ b) :=
      List.pairwise_map.mpr (hs.imp (fun h => ne_of_lt h))
    exact this
  have hnds : ((l.mergeSort le).map key).Nodup :=
    ((hperm.map key).symm).nodup hndt
  have hsorted : (l.mergeSort le).Pairwise (fun a b => key a < key b) := by
    have h1 := List.sorted_mergeSort htrans htotal l
    have h2 : (l.mergeSort le).Pairwise (fun a b => key a ≠ key b) :=
      List.pairwise_map.mp hnds
    exact (h1.and h2).imp (fun hab => lt_of_le_of_ne (hcompat _ _ hab.1) hab.2)
  exact List.eq_of_perm_of_sorted hperm hsorted hs

theorem pairLe_trans (a b c : Nat × Nat) :
    pairLe a b = true → pairLe b c = true → pairLe a c = true := by
  simp only [pairLe, decide_eq_true_eq]
  omega

theorem pairLe_total (a b : Nat × Nat) : (pairLe a b || pairLe b a) = true := by
  simp only [pairLe, Bool.or_eq_true, decide_eq_true_eq]
  omega

theorem pairLe_fst (a b : Nat × Nat) : pairLe a b = true → a.1 ≤ b.1 := by
  simp only [pairLe, decide_eq_true_eq]
  omega

/-- Core inverse on one group: sorting `zip(shifts, gathered)` back by
shift index recovers the group, whenever `shifts` is a permutation of the
group's index range. -/
theorem unshiftGroup_shiftGroup (shifts g : List Nat)
    (h : shifts.Perm (List.range g.length)) :
    unshiftGroup shifts (shiftGroup shifts g) = g := by
  unfold unshiftGroup shiftGroup
  have hzip : shifts.zip (shifts.map (fun t => g.getD t 0)) =
      shifts.map (fun t => (t, g.getD t 0)) := by
    have := List.zip_map' id (fun t => g.getD t 0) shifts
    simpa using this
  rw [hzip]
  have htag : (List.range g.length).map (fun t => (t, g.getD t 0)) =
      tagFrom 0 g := by
    rw [List.range_eq_range']
    exact map_range'_eq_tagFrom g 0 g (by intro j hj; simp)
  have hperm : (shifts.map (fun t => (t, g.getD t 0))).Perm (tagFrom 0 g) := by
    rw [← htag]
    exact h.map _
  rw [mergeSort_eq_of_key_sorted (fun p : Nat × Nat => p.1) pairLe
    pairLe_trans pairLe_total pairLe_fst hperm (tagFrom_pairwise 0 g)]
  exact tagFrom_map_snd 0 g

theorem xorChunk_length (keys g : List Nat) (h : g.length = keys.length) :
    (xorChunk keys g).length = keys.length := by
  simp [xorChunk, h]

theorem xorChunk_xorChunk : ∀ (keys g : List Nat), g.length = keys.length →
    xorChunk keys (xorChunk keys g) = g
  | [], [], _ => rfl
  | k :: ks, x :: xs, h => by
    have := xorChunk_xorChunk ks xs (by simpa using h)
    simp only [xorChunk, List.zip_cons_cons, List.map_cons] at this ⊢
    rw [Nat.xor_assoc, Nat.xor_self, Nat.xor_zero]
    simpa [xorChunk] using this

theorem shiftGroup_length (shifts g : List Nat) :
    (shiftGroup shifts g).length = shifts.length := by
  simp [shiftGroup]

theorem chunkApply_length (f : List Nat → List Nat) (k : Nat)
    (hf : ∀ g, g.length = k → (f g).length = k) :
    ∀ (m : Nat) (data : List Nat), data.length = k * m →
      (chunkApply f k m data).length = k * m
  | 0, _, _ => by simp [chunkApply]
  | m + 1, data, h => by
    have htake : (data.take k).length = k := by
      rw [List.length_take, h]
      exact Nat.min_eq_left (by nlinarith)
    have hdrop : (data.drop k).length = k * m := by
      rw [List.length_drop, h, Nat.mul_succ]
      omega
    simp only [chunkApply, List.length_append, hf _ htake,
      chunkApply_length f k hf m _ hdrop, Nat.mul_succ]
    omega

theorem chunkApply_inv (f g' : List Nat → List Nat) (k : Nat)
    (hflen : ∀ x, x.length = k → (f x).length = k)
    (hinv : ∀ x, x.length = k → g' (f x) = x) :
    ∀ (m : Nat) (data : List Nat), data.length = k * m →
      chunkApply g' k m (chunkApply f k m data) = data
  | 0, data, h => by
    have hnil : data = [] := List.length_eq_zero.mp (by simpa using h)
    subst hnil
    rfl
  | m + 1, data, h => by
    have htake : (data.take k).length = k := by
      rw [List.length_take, h]
      exact Nat.min_eq_left (by nlinarith)
    have hdrop : (data.drop k).length = k * m := by
      rw [List.length_drop, h, Nat.mul_succ]
      omega
    have hfl := hflen _ htake
    simp only [chunkApply]
    rw [List.take_left' hfl, List.drop_left' hfl,
      hinv _ htake, chunkApply_inv f g' k hflen hinv m _ hdrop,
      List.take_append_drop]

theorem init_ok {α : Type} (R : RandModel α) (pw : α) (L : Int)
    (c : SimpleCrypter) (h : SimpleCrypter.init R pw L = .ok c) :
    0 < L ∧ L ≤ 255 ∧
    c.shifts = R.sample1 pw L.toNat ∧ c.keys = R.sample2 pw L.toNat ∧
    c.keys.length = L.toNat ∧ 0 < c.keys.length ∧
    c.shifts.Perm (List.range c.keys.length) := by
  unfold SimpleCrypter.init at h
  split at h
  · exact absurd h (by simp)
  · split at h
    · exact absurd h (by simp)
    · rename_i h1 h2
      have hL : 0 < L := by omega
      have hL2 : L ≤ 255 := by omega
      have hc := Except.ok.inj h
      subst hc
      have hn : L.toNat ≤ 255 := by omega
      have hkl : (R.sample2 pw L.toNat).length = L.toNat :=
        R.sample2_length pw L.toNat hn
      refine ⟨hL, hL2, rfl, rfl, hkl, ?_, ?_⟩
      · simp only [hkl]
        omega
      · simp only [hkl]
        exact R.sample1_perm pw L.toNat

/-- Round trip of the cipher on aligned data: encrypting and decrypting
with the same crypter restores the plaintext exactly under
`keep_null = true`, and restores the plaintext with its trailing zero
bytes stripped under the default `keep_null = false`. -/
theorem crypter_roundtrip (c : SimpleCrypter)
    (hperm : c.shifts.Perm (List.range c.keys.length))
    (hk : 0 < c.keys.length) (D : List Nat)
    (hD : D.length % c.keys.length = 0) (padding : Bool) :
    ∃ E, c.encrypt D padding = .ok E ∧ E.length = D.length ∧
      c.decrypt E true = .ok D ∧ c.decrypt E false = .ok (rstripZero D) := by
  obtain ⟨m, hDlen⟩ : ∃ m, D.length = c.keys.length * m := by
    refine ⟨D.length / c.keys.length, ?_⟩
    have := Nat.div_add_mod D.length c.keys.length
    omega
  have hdiv : D.length / c.keys.length = m := by
    rw [hDlen]
    exact Nat.mul_div_cancel_left m hk
  have hshiftlen : c.shifts.length = c.keys.length := by
    simpa using hperm.length_eq
  have hxlen : ∀ g : List Nat, g.length = c.keys.length →
      (xorChunk c.keys g).length = c.keys.length :=
    fun g hg => xorChunk_length c.keys g hg
  have hxinv : ∀ g : List Nat, g.length = c.keys.length →
      xorChunk c.keys (xorChunk c.keys g) = g :=
    fun g hg => xorChunk_xorChunk c.keys g hg
  have hslen : ∀ g : List Nat, g.length = c.keys.length →
      (shiftGroup c.shifts g).length = c.keys.length :=
    fun g _ => by rw [shiftGroup_length, hshiftlen]
  have hsinv : ∀ g : List Nat, g.length = c.keys.length →
      unshiftGroup c.shifts (shiftGroup c.shifts g) = g := by
    intro g hg
    exact unshiftGroup_shiftGroup c.shifts g (by rw [hg]; exact hperm)
  have hX : c.applyTo D =
      .ok (chunkApply (xorChunk c.keys) c.keys.length m D) := by
    unfold SimpleCrypter.applyTo
    rw [if_neg (by simp [hD]), hdiv]
  have hXlen : (chunkApply (xorChunk c.keys) c.keys.length m D).length =
      c.keys.length * m := chunkApply_length _ _ hxlen m D hDlen
  have hElen : (chunkApply (shiftGroup c.shifts) c.keys.length m
      (chunkApply (xorChunk c.keys) c.keys.length m D)).length =
      c.keys.length * m := chunkApply_length _ _ hslen m _ hXlen
  have hpad : (c.keys.length - D.length % c.keys.length) % c.keys.length = 0 := by
    rw [hD]
    simp
  have henc : c.encrypt D padding = .ok (chunkApply (shiftGroup c.shifts)
      c.keys.length m (chunkApply (xorChunk c.keys) c.keys.length m D)) := by
    unfold SimpleCrypter.encrypt
    rw [if_neg (by simp [hpad])]
    simp only [hpad, List.replicate_zero, List.append_nil, hX, hdiv]
  have hXmod :
      (chunkApply (xorChunk c.keys) c.keys.length m D).length % c.keys.length = 0 := by
    rw [hXlen]
    simp
  have hXdiv :
      (chunkApply (xorChunk c.keys) c.keys.length m D).length / c.keys.length = m := by
    rw [hXlen]
    exact Nat.mul_div_cancel_left m hk
  have hXapply : c.applyTo (chunkApply (xorChunk c.keys) c.keys.length m D) =
      .ok D := by
    unfold SimpleCrypter.applyTo
    rw [if_neg (by simp [hXmod]), hXdiv, chunkApply_inv _ _ _ hxlen hxinv m D hDlen]
  have hEmod : (chunkApply (shiftGroup c.shifts) c.keys.length m
      (chunkApply (xorChunk c.keys) c.keys.length m D)).length % c.keys.length = 0 := by
    rw [hElen]
    simp
  have hEdiv : (chunkApply (shiftGroup c.shifts) c.keys.length m
      (chunkApply (xorChunk c.keys) c.keys.length m D)).length / c.keys.length = m := by
    rw [hElen]
    exact Nat.mul_div_cancel_left m hk
  have hunshift : chunkApply (unshiftGroup c.shifts) c.keys.length m
      (chunkApply (shiftGroup c.shifts) c.keys.length m
        (chunkApply (xorChunk c.keys) c.keys.length m D)) =
      chunkApply (xorChunk c.keys) c.keys.length m D :=
    chunkApply_inv _ _ _ hslen hsinv m _ hXlen
  have hdec : ∀ kn : Bool, c.decrypt (chunkApply (shiftGroup c.shifts)
      c.keys.length m (chunkApply (xorChunk c.keys) c.keys.length m D)) kn =
      .ok (if kn then D else rstripZero D) := by
    intro kn
    unfold SimpleCrypter.decrypt
    rw [if_neg (by simp [hEmod]), hEdiv, hunshift, hXapply]
  refine ⟨_, henc, by rw [hElen, ← hDlen], ?_, ?_⟩
  · simpa using hdec true
  · simpa using hdec false

/-- C1, counterexample.  The claim "`decrypt(encrypt(D, padding=False))`
returns exactly `D` ... including when `D` ends in zero bytes" is false:
`decrypt` defaults to `keep_null = False` and strips trailing zero bytes,
so for the cipher built from any password with length 1 and `D = b"\x00"`,
encrypting succeeds but decrypting returns `b""`, not `D`. -/
theorem C1_counterexample :
    SimpleCrypter.init (trivRand (List Nat)) [] 1 = .ok ⟨[0], [0]⟩ ∧
    ([0] : List Nat).length % (SimpleCrypter.mk [0] [0]).keys.length = 0 ∧
    SimpleCrypter.encrypt ⟨[0], [0]⟩ [0] false = .ok [0] ∧
    SimpleCrypter.decrypt ⟨[0], [0]⟩ [0] false = .ok [] ∧
    ([] : List Nat) ≠ [0] := by
  refine ⟨by decide, by decide, by decide, ?_, by decide⟩
  simp [SimpleCrypter.decrypt, SimpleCrypter.applyTo, chunkApply, unshiftGroup,
    xorChunk, List.mergeSort, rstripZero]

/-- C1, amended.  For every password, every length for which the cipher can
be constructed, and every `D` whose length is a multiple of the key
length, encrypting with `padding = False` succeeds and decrypting returns
exactly `D` when `keep_null = True`; with the default `keep_null = False`
(the call the claim makes) it returns `D` with its trailing zero bytes
stripped — hence exactly `D` whenever `D` does not end in a zero byte. -/
theorem C1_roundtrip_amended {α : Type} (R : RandModel α) (pw : α) (L : Int)
    (c : SimpleCrypter) (hc : SimpleCrypter.init R pw L = .ok c)
    (D : List Nat) (hD : D.length % c.keys.length = 0) :
    ∃ E, c.encrypt D false = .ok E ∧ c.decrypt E true = .ok D ∧
      c.decrypt E false = .ok (rstripZero D) := by
  obtain ⟨-, -, -, -, -, hk, hperm⟩ := init_ok R pw L c hc
  obtain ⟨E, h1, -, h2, h3⟩ := crypter_roundtrip c hperm hk D hD false
  exact ⟨E, h1, h2, h3⟩

/-- Witness for C1's amended theorem at a concrete instance. -/
theorem C1_roundtrip_amended_witness :
    SimpleCrypter.init (trivRand (List Nat)) [] 2 = .ok ⟨[0, 1], [0, 1]⟩ ∧
    ([1, 2] : List Nat).length % (SimpleCrypter.mk [0, 1] [0, 1]).keys.length = 0 ∧
    ∃ E, SimpleCrypter.encrypt ⟨[0, 1], [0, 1]⟩ [1, 2] false = .ok E ∧
      SimpleCrypter.decrypt ⟨[0, 1], [0, 1]⟩ E true = .ok [1, 2] ∧
      SimpleCrypter.decrypt ⟨[0, 1], [0, 1]⟩ E false = .ok (rstripZero [1, 2]) :=
  ⟨by decide, by decide,
    C1_roundtrip_amended (trivRand (List Nat)) [] 2 ⟨[0, 1], [0, 1]⟩ (by decide)
      [1, 2] (by decide)⟩

/-- C6, counterexample.  The claim "for every length > 0 construction
succeeds" is false: at `length = 256 > 0` the draw
`rand.sample(range(0xFF), k=256)` exceeds its 255-element population and
construction raises `ValueError`. -/
theorem C6_counterexample :
    (0 : Int) < 256 ∧
    SimpleCrypter.init (trivRand Nat) 0 256 =
      .error (.valueError "Sample larger than population or is negative") := by
  exact ⟨by decide, by decide⟩

/-- C6, amended.  `SimpleCrypter` construction fails exactly when the
requested key length is non-positive or exceeds 255 (the population of
`range(0xFF)` from which the keys are drawn without replacement); for
`0 < length ≤ 255` it succeeds, producing `shifts` that are a permutation
of `[0, length)` and `keys` that are `length` distinct byte values drawn
from `[0, 255)`. -/
theorem C6_init_amended {α : Type} (R : RandModel α) (pw : α) (L : Int) :
    ((L ≤ 0 ∨ 255 < L) → ∃ m, SimpleCrypter.init R pw L = .error (.valueError m)) ∧
    (0 < L → L ≤ 255 → ∃ c, SimpleCrypter.init R pw L = .ok c ∧
      c.shifts.Perm (List.range L.toNat) ∧ c.keys.length = L.toNat ∧
      c.keys.Nodup ∧ ∀ x ∈ c.keys, x < 255) := by
  constructor
  · intro h
    unfold SimpleCrypter.init
    by_cases h1 : L ≤ 0
    · exact ⟨_, by rw [if_pos h1]⟩
    · have h2 : 255 < L := by
        rcases h with h | h
        · omega
        · exact h
      exact ⟨_, by rw [if_neg h1, if_pos h2]⟩
  · intro h1 h2
    have hn : L.toNat ≤ 255 := by omega
    refine ⟨⟨R.sample1 pw L.toNat, R.sample2 pw L.toNat⟩, ?_,
      R.sample1_perm pw L.toNat, R.sample2_length pw L.toNat hn,
      R.sample2_nodup pw L.toNat hn, fun x hx => R.sample2_mem pw L.toNat x hn hx⟩
    unfold SimpleCrypter.init
    rw [if_neg (by omega), if_neg (by omega)]

/-- Witness for C6's amended theorem at concrete instances. -/
theorem C6_init_amended_witness :
    (∃ m, SimpleCrypter.init (trivRand Nat) 0 0 = .error (.valueError m)) ∧
    (∃ c, SimpleCrypter.init (trivRand Nat) 0 4 = .ok c ∧
      c.shifts.Perm (List.range (4 : Int).toNat) ∧
      c.keys.length = (4 : Int).toNat ∧ c.keys.Nodup ∧ ∀ x ∈ c.keys, x < 255) :=
  ⟨(C6_init_amended (trivRand Nat) 0 0).1 (Or.inl (by decide)),
   (C6_init_amended (trivRand Nat) 0 4).2 (by decide) (by decide)⟩

/-- Model of `hashlib.sha1`, an external primitive of the Python standard
library: a deterministic function from byte strings to 20-byte digests. -/
structure Sha1Model where
  digest : List Nat → List Nat
  digest_length : ∀ d, (digest d).length = 20
  digest_mem : ∀ d x, x ∈ digest d → x < 256

/-- A concrete inhabitant of `Sha1Model`, used to evaluate the development
on closed inputs. -/
def trivSha1 : Sha1Model where
  digest _ := List.replicate 20 0
  digest_length _ := List.length_replicate _ _
  digest_mem _ x hx := by
    have := List.eq_of_mem_replicate hx
    omega

/-- The `Flag` dataclass of `flag.py`: `encrypted_data` (4 bytes),
`partial_password` (2 bytes), `decrypted_data_checksum` (2 bytes) and
`challenge_id` (a Python `int`, modelled as `Int` since `__post_init__`
checks it against 0 and 0xFF). -/
structure Flag where
  encrypted_data : List Nat
  partial_password : List Nat
  decrypted_data_checksum : List Nat
  challenge_id : Int
deriving DecidableEq

/-- The checks of `Flag.__post_init__`, in source order; the dataclass
constructor runs them and raises `ValueError` on the first violation. -/
def Flag.make (ed pp cs : List Nat) (id : Int) : Except Err Flag :=
  if ed.length ≠ 4 then
    .error (.valueError "The length of 'encrypted_data' should be equal to 4.")
  else if pp.length ≠ 2 then
    .error (.valueError "The length of 'partial_password' should be equal to 2.")
  else if cs.length ≠ 2 then
    .error (.valueError "The length of 'decrypted_data_checksum' should be equal to 2.")
  else if id < 0 then
    .error (.valueError "The value of 'challenge_id' should be greater than or equal to 0.")
  else if 255 < id then
    .error (.valueError "The value of 'challenge_id' is too big to fit in a 1-byte block.")
  else
    .ok ⟨ed, pp, cs, id⟩

/-- Structural validity of a `Flag`: exactly the conditions under which
`Flag.__post_init__` passes. -/
def Flag.Valid (f : Flag) : Prop :=
  f.encrypted_data.length = 4 ∧ f.partial_password.length = 2 ∧
  f.decrypted_data_checksum.length = 2 ∧ 0 ≤ f.challenge_id ∧
  f.challenge_id ≤ 255

instance (f : Flag) : Decidable f.Valid := by
  unfold Flag.Valid
  infer_instance

theorem Flag.make_ok (ed pp cs : List Nat) (id : Int)
    (h1 : ed.length = 4) (h2 : pp.length = 2) (h3 : cs.length = 2)
    (h4 : 0 ≤ id) (h5 : id ≤ 255) :
    Flag.make ed pp cs id = .ok ⟨ed, pp, cs, id⟩ := by
  unfold Flag.make
  rw [if_neg (by omega), if_neg (by omega), if_neg (by omega),
    if_neg (by omega), if_neg (by omega)]

/-- The constant `VALIDATABLE_FLAG_SIGNATURE` of `flag.py`. -/
def VALIDATABLE_FLAG_SIGNATURE : Int := 0xFA

/-- The `ValidatableFlag` dataclass: a `Flag` plus `expected_hash` (6
bytes) and `signature` (defaults to `VALIDATABLE_FLAG_SIGNATURE`). -/
structure ValidatableFlag extends Flag where
  expected_hash : List Nat
  signature : Int
deriving DecidableEq

/-- `ValidatableFlag._identity(flag)`:
`encrypted_data + partial_password + challenge_id.to_bytes()`. -/
def flagIdentity (f : Flag) : List Nat :=
  f.encrypted_data ++ f.partial_password ++ toBytesBE 1 f.challenge_id.toNat

/-- `ValidatableFlag.hash(flag)`: the first 6 bytes of the SHA-1 digest of
the flag's identity. -/
def flagHash (S : Sha1Model) (f : Flag) : List Nat :=
  (S.digest (flagIdentity f)).take 6

/-- The checks of `ValidatableFlag.__post_init__`, in source order: the
structural `Flag` checks, then the `expected_hash` width check
(`ValueError`), then the signature check and the recomputed-hash check
(both `ValidationFailed`). -/
def ValidatableFlag.make (S : Sha1Model) (ed pp cs : List Nat) (id : Int)
    (eh : List Nat) (sig : Int) : Except Err ValidatableFlag :=
  match Flag.make ed pp cs id with
  | .error e => .error e
  | .ok f =>
      if eh.length ≠ 6 then
        .error (.valueError "The length of 'expected_hash' should be equal to 6.")
      else if sig ≠ VALIDATABLE_FLAG_SIGNATURE then
        .error (.validationFailed "Signature validation failed.")
      else if flagHash S f ≠ eh then
        .error (.validationFailed "Hash validation failed.")
      else
        .ok ⟨f, eh, sig⟩

/-- `ValidatableFlag.from_general(flag)`: rebuild through the validating
constructor with the recomputed hash and the default signature. -/
def ValidatableFlag.from_general (S : Sha1Model) (f : Flag) :
    Except Err ValidatableFlag :=
  ValidatableFlag.make S f.encrypted_data f.partial_password
    f.decrypted_data_checksum f.challenge_id (flagHash S f)
    VALIDATABLE_FLAG_SIGNATURE

theorem Flag.make_ok_inv (ed pp cs : List Nat) (id : Int) (f : Flag)
    (h : Flag.make ed pp cs id = .ok f) :
    ed.length = 4 ∧ pp.length = 2 ∧ cs.length = 2 ∧ 0 ≤ id ∧ id ≤ 255 ∧
    f = ⟨ed, pp, cs, id⟩ := by
  unfold Flag.make at h
  split_ifs at h with h1 h2 h3 h4 h5
  exact ⟨by omega, by omega, by omega, by omega, by omega,
    (Except.ok.inj h).symm⟩

theorem Flag.make_error_inv (ed pp cs : List Nat) (id : Int) (e : Err)
    (h : Flag.make ed pp cs id = .error e) : ∃ m, e = Err.valueError m := by
  unfold Flag.make at h
  split_ifs at h
  all_goals exact ⟨_, (Except.error.inj h).symm⟩

theorem ValidatableFlag.make_step (S : Sha1Model) (ed pp cs : List Nat)
    (id : Int) (eh : List Nat) (sig : Int) (f : Flag)
    (hf : Flag.make ed pp cs id = .ok f) :
    ValidatableFlag.make S ed pp cs id eh sig =
      (if eh.length ≠ 6 then
        .error (.valueError "The length of 'expected_hash' should be equal to 6.")
      else if sig ≠ VALIDATABLE_FLAG_SIGNATURE then
        .error (.validationFailed "Signature validation failed.")
      else if flagHash S f ≠ eh then
        .error (.validationFailed "Hash validation failed.")
      else
        .ok ⟨f, eh, sig⟩) := by
  unfold ValidatableFlag.make
  rw [hf]

theorem ValidatableFlag.make_step_error (S : Sha1Model) (ed pp cs : List Nat)
    (id : Int) (eh : List Nat) (sig : Int) (e : Err)
    (hf : Flag.make ed pp cs id = .error e) :
    ValidatableFlag.make S ed pp cs id eh sig = .error e := by
  unfold ValidatableFlag.make
  rw [hf]

theorem ValidatableFlag.make_validationFailed_inv (S : Sha1Model)
    (ed pp cs : List Nat) (id : Int) (eh : List Nat) (sig : Int) (m : String)
    (h : ValidatableFlag.make S ed pp cs id eh sig = .error (.validationFailed m)) :
    ed.length = 4 ∧ pp.length = 2 ∧ cs.length = 2 ∧ 0 ≤ id ∧ id ≤ 255 ∧
    eh.length = 6 := by
  rcases hfm : Flag.make ed pp cs id with e | f
  · rw [ValidatableFlag.make_step_error S ed pp cs id eh sig e hfm] at h
    obtain ⟨m', rfl⟩ := Flag.make_error_inv ed pp cs id e hfm
    exact absurd (Except.error.inj h) (by simp)
  · obtain ⟨h1, h2, h3, h4, h5, rfl⟩ := Flag.make_ok_inv ed pp cs id f hfm
    rw [ValidatableFlag.make_step S ed pp cs id eh sig _ hfm] at h
    split_ifs at h with h6 h7 h8
    · exact absurd (Except.error.inj h) (by simp)
    · exact ⟨h1, h2, h3, h4, h5, by omega⟩
    · exact ⟨h1, h2, h3, h4, h5, by omega⟩

theorem ValidatableFlag.make_success_inv (S : Sha1Model)
    (ed pp cs : List Nat) (id : Int) (eh : List Nat) (sig : Int)
    (v : ValidatableFlag)
    (h : ValidatableFlag.make S ed pp cs id eh sig = .ok v) :
    ed.length = 4 ∧ pp.length = 2 ∧ cs.length = 2 ∧ 0 ≤ id ∧ id ≤ 255 ∧
    eh.length = 6 := by
  rcases hfm : Flag.make ed pp cs id with e | f
  · rw [ValidatableFlag.make_step_error S ed pp cs id eh sig e hfm] at h
    exact absurd h (by simp)
  · obtain ⟨h1, h2, h3, h4, h5, rfl⟩ := Flag.make_ok_inv ed pp cs id f hfm
    rw [ValidatableFlag.make_step S ed pp cs id eh sig _ hfm] at h
    split_ifs at h with h6 h7 h8
    exact ⟨h1, h2, h3, h4, h5, by omega⟩

/-- C4.  Constructing a `ValidatableFlag` from structurally valid fields
whose signature differs from `VALIDATABLE_FLAG_SIGNATURE`, or whose
recomputed 6-byte SHA-1-prefix hash differs from the stored
`expected_hash`, fails with the `ValidationFailed` error kind, while a
wrong field width or an out-of-range `challenge_id` fails with the
structural `ValueError` kind; the two kinds are distinct. -/
theorem C4_validation_error_kinds (S : Sha1Model) (ed pp cs : List Nat)
    (id : Int) (eh : List Nat) (sig : Int) :
    ((ed.length = 4 ∧ pp.length = 2 ∧ cs.length = 2 ∧ 0 ≤ id ∧ id ≤ 255 ∧
        eh.length = 6) →
      (sig ≠ VALIDATABLE_FLAG_SIGNATURE ∨ flagHash S ⟨ed, pp, cs, id⟩ ≠ eh) →
      ∃ m, ValidatableFlag.make S ed pp cs id eh sig = .error (.validationFailed m)) ∧
    ((ed.length ≠ 4 ∨ pp.length ≠ 2 ∨ cs.length ≠ 2 ∨ id < 0 ∨ 255 < id ∨
        eh.length ≠ 6) →
      ∃ m, ValidatableFlag.make S ed pp cs id eh sig = .error (.valueError m)) ∧
    (∀ m m', (Err.validationFailed m : Err) ≠ Err.valueError m') := by
  refine ⟨?_, ?_, fun m m' h => Err.noConfusion h⟩
  · rintro ⟨h1, h2, h3, h4, h5, h6⟩ hbad
    rw [ValidatableFlag.make_step S ed pp cs id eh sig ⟨ed, pp, cs, id⟩
      (Flag.make_ok ed pp cs id h1 h2 h3 h4 h5)]
    rw [if_neg (by omega)]
    by_cases hsig : sig = VALIDATABLE_FLAG_SIGNATURE
    · have hhash : flagHash S ⟨ed, pp, cs, id⟩ ≠ eh := by
        rcases hbad with hbad | hbad
        · exact absurd hsig hbad
        · exact hbad
      rw [if_neg (by simpa using hsig), if_pos hhash]
      exact ⟨_, rfl⟩
    · rw [if_pos hsig]
      exact ⟨_, rfl⟩
  · intro h
    rcases hres : ValidatableFlag.make S ed pp cs id eh sig with e | v
    · rcases e with m | m
      · exact ⟨m, rfl⟩
      · have := ValidatableFlag.make_validationFailed_inv S ed pp cs id eh sig m hres
        omega
    · have := ValidatableFlag.make_success_inv S ed pp cs id eh sig v hres
      omega

/-- Witness for C4 at concrete instances: a tampered signature fails as a
validation failure, and a wrong field width fails as a value error. -/
theorem C4_validation_error_kinds_witness :
    (∃ m, ValidatableFlag.make trivSha1 [1, 2, 3, 4] [5, 6] [7, 8] 9
      (flagHash trivSha1 ⟨[1, 2, 3, 4], [5, 6], [7, 8], 9⟩) 0 =
      .error (.validationFailed m)) ∧
    (∃ m, ValidatableFlag.make trivSha1 [1, 2, 3] [5, 6] [7, 8] 9
      (flagHash trivSha1 ⟨[1, 2, 3], [5, 6], [7, 8], 9⟩) 250 =
      .error (.valueError m)) :=
  ⟨(C4_validation_error_kinds trivSha1 [1, 2, 3, 4] [5, 6] [7, 8] 9
      (flagHash trivSha1 ⟨[1, 2, 3, 4], [5, 6], [7, 8], 9⟩) 0).1
      (by refine ⟨rfl, rfl, rfl, by decide, by decide, ?_⟩
          simp [flagHash, List.length_take, trivSha1.digest_length])
      (Or.inl (by decide)),
   (C4_validation_error_kinds trivSha1 [1, 2, 3] [5, 6] [7, 8] 9
      (flagHash trivSha1 ⟨[1, 2, 3], [5, 6], [7, 8], 9⟩) 250).2.1
      (Or.inl (by decide))⟩

theorem from_general_spec (S : Sha1Model) (f : Flag) (hf : f.Valid) :
    ValidatableFlag.from_general S f =
      .ok ⟨f, flagHash S f, VALIDATABLE_FLAG_SIGNATURE⟩ := by
  obtain ⟨h1, h2, h3, h4, h5⟩ := hf
  unfold ValidatableFlag.from_general
  have hmk : Flag.make f.encrypted_data f.partial_password
      f.decrypted_data_checksum f.challenge_id = .ok f := by
    rw [Flag.make_ok f.encrypted_data f.partial_password
      f.decrypted_data_checksum f.challenge_id h1 h2 h3 h4 h5]
  rw [ValidatableFlag.make_step S f.encrypted_data f.partial_password
    f.decrypted_data_checksum f.challenge_id (flagHash S f)
    VALIDATABLE_FLAG_SIGNATURE f hmk]
  have hlen : (flagHash S f).length = 6 := by
    simp [flagHash, List.length_take, S.digest_length]
  rw [if_neg (by omega), if_neg (by simp), if_neg (by simp)]

/-- C8.  For every structurally valid base `Flag`,
`ValidatableFlag.from_general` never fails and returns a flag with the
same four base fields, `expected_hash` equal to the recomputed 6-byte
SHA-1-prefix commitment, and `signature` equal to the fixed constant. -/
theorem C8_from_general_ok (S : Sha1Model) (f : Flag) (hf : f.Valid) :
    ValidatableFlag.from_general S f =
      .ok ⟨f, flagHash S f, VALIDATABLE_FLAG_SIGNATURE⟩ :=
  from_general_spec S f hf

/-- Witness for C8 at a concrete valid flag. -/
theorem C8_from_general_ok_witness :
    ValidatableFlag.from_general trivSha1 ⟨[1, 2, 3, 4], [5, 6], [7, 8], 9⟩ =
      .ok ⟨⟨[1, 2, 3, 4], [5, 6], [7, 8], 9⟩,
        flagHash trivSha1 ⟨[1, 2, 3, 4], [5, 6], [7, 8], 9⟩,
        VALIDATABLE_FLAG_SIGNATURE⟩ :=
  C8_from_general_ok trivSha1 ⟨[1, 2, 3, 4], [5, 6], [7, 8], 9⟩ (by decide)

/-- The 5-tuple of byte blocks of `uuid.py` (`UuidBlocks`). -/
def UuidBlocks : Type :=
  List Nat × List Nat × List Nat × List Nat × List Nat

instance : DecidableEq UuidBlocks := by
  unfold UuidBlocks
  infer_instance

/-- The lowercase hex digit of a value below 16, as produced by
`bytes.hex`. -/
def hexDigitChar (n : Nat) : Char :=
  "0123456789abcdef".toList.getD n '0'

/-- One byte rendered as two lowercase hex digits. -/
def byteToHex (b : Nat) : List Char :=
  [hexDigitChar (b / 16), hexDigitChar (b % 16)]

/-- Python `bytes.hex()`: each byte as two lowercase hex digits. -/
def bytesToHex (l : List Nat) : List Char :=
  (l.map byteToHex).flatten

/-- The numeric value of a hex digit, either case (as accepted by
`bytes.fromhex`). -/
def hexVal (c : Char) : Nat :=
  if '0' ≤ c ∧ c ≤ '9' then c.toNat - 48
  else if 'a' ≤ c ∧ c ≤ 'f' then c.toNat - 87
  else if 'A' ≤ c ∧ c ≤ 'F' then c.toNat - 55
  else 0

/-- Python `bytes.fromhex` on an even-length digit string: consume the
digits two at a time. -/
def fromHex : List Char → List Nat
  | a :: b :: rest => (16 * hexVal a + hexVal b) :: fromHex rest
  | _ => []

/-- Membership in Python's `string.hexdigits`. -/
def isHexDigit (c : Char) : Bool :=
  "0123456789abcdefABCDEF".toList.contains c

/-- The hyphen-join of `"-".join(...)`. -/
def joinSep (sep : Char) : List (List Char) → List Char
  | [] => []
  | [g] => g
  | g :: gs => g ++ sep :: joinSep sep gs

/-- Python `str.split` with a one-character separator. -/
def pySplit (sep : Char) : List Char → List (List Char)
  | [] => [[]]
  | c :: rest =>
      if c = sep then [] :: pySplit sep rest
      else
        match pySplit sep rest with
        | g :: gs => (c :: g) :: gs
        | [] => [[c]]

/-- `make_uuid_like(blocks)`: require byte widths `[4, 2, 2, 2, 6]`, then
hex-encode each block and join with hyphens. -/
def make_uuid_like (b : UuidBlocks) : Except Err (List Char) :=
  if b.1.length = 4 ∧ b.2.1.length = 2 ∧ b.2.2.1.length = 2 ∧
      b.2.2.2.1.length = 2 ∧ b.2.2.2.2.length = 6 then
    .ok (joinSep '-' [bytesToHex b.1, bytesToHex b.2.1, bytesToHex b.2.2.1,
      bytesToHex b.2.2.2.1, bytesToHex b.2.2.2.2])
  else
    .error (.valueError "Some blocks do not meet the length requirements.")

/-- `parse_uuid_like(uuid)`: split on hyphens, require 5 groups of hex
digit widths `[8, 4, 4, 4, 12]` with every character a hex digit, then
hex-decode each group. -/
def parse_uuid_like (s : List Char) : Except Err UuidBlocks :=
  match pySplit '-' s with
  | [g1, g2, g3, g4, g5] =>
      if g1.length = 8 ∧ g2.length = 4 ∧ g3.length = 4 ∧ g4.length = 4 ∧
          g5.length = 12 then
        if (g1 ++ g2 ++ g3 ++ g4 ++ g5).all isHexDigit then
          .ok (fromHex g1, fromHex g2, fromHex g3, fromHex g4, fromHex g5)
        else
          .error (.valueError "Some characters are not valid for hex.")
      else
        .error (.valueError "Some blocks do not meet the length requirements.")
  | _ => .error (.valueError "Too many or too few blocks for a UUID-like string.")

/-- Python `str.upper` on one character, used to state that decoding is
case-insensitive. -/
def charUpper (c : Char) : Char :=
  if 'a' ≤ c ∧ c ≤ 'z' then Char.ofNat (c.toNat - 32) else c

theorem hexChar_mem (n : Nat) : hexDigitChar n ∈ "0123456789abcdef".toList := by
  by_cases h : n < 16
  · exact (by decide : ∀ m, m < 16 → hexDigitChar m ∈ "0123456789abcdef".toList) n h
  · unfold hexDigitChar
    rw [List.getD_eq_default _ _ (by
      rw [(by decide : ("0123456789abcdef".toList).length = 16)]
      omega)]
    decide

theorem hexDigitChar_props (n : Nat) :
    hexDigitChar n ≠ '-' ∧ isHexDigit (hexDigitChar n) = true ∧
    charUpper (hexDigitChar n) ≠ '-' ∧
    isHexDigit (charUpper (hexDigitChar n)) = true := by
  have hm := hexChar_mem n
  revert hm
  generalize hexDigitChar n = c
  exact (by decide : ∀ c, c ∈ "0123456789abcdef".toList →
    c ≠ '-' ∧ isHexDigit c = true ∧ charUpper c ≠ '-' ∧
    isHexDigit (charUpper c) = true) c

theorem bytesToHex_forall (P : Char → Prop) (hP : ∀ n, P (hexDigitChar n)) :
    ∀ l, ∀ c ∈ bytesToHex l, P c := by
  intro l
  induction l with
  | nil => intro c hc; simp [bytesToHex] at hc
  | cons x xs ih =>
    intro c hc
    have hc' : c ∈ byteToHex x ++ bytesToHex xs := by
      simpa [bytesToHex] using hc
    rcases List.mem_append.mp hc' with hc2 | hc2
    · have : c = hexDigitChar (x / 16) ∨ c = hexDigitChar (x % 16) := by
        simpa [byteToHex] using hc2
      rcases this with rfl | rfl
      · exact hP _
      · exact hP _
    · exact ih c hc2

theorem bytesToHex_length (l : List Nat) : (bytesToHex l).length = 2 * l.length := by
  induction l with
  | nil => rfl
  | cons x xs ih =>
    simp only [bytesToHex, List.map_cons, List.flatten_cons, List.length_append,
      List.length_cons] at ih ⊢
    simp [byteToHex] at ih ⊢
    omega

theorem fromHex_cons2 (a b : Char) (rest : List Char) :
    fromHex (a :: b :: rest) = (16 * hexVal a + hexVal b) :: fromHex rest := rfl

set_option maxRecDepth 4096 in
theorem fromHex_byteToHex : ∀ b, b < 256 → fromHex (byteToHex b) = [b] := by
  decide

set_option maxRecDepth 4096 in
theorem fromHex_upper_byteToHex :
    ∀ b, b < 256 → fromHex ((byteToHex b).map charUpper) = [b] := by
  decide

theorem fromHex_byteToHex_append (b : Nat) (hb : b < 256) (rest : List Char) :
    fromHex (byteToHex b ++ rest) = b :: fromHex rest := by
  have h := fromHex_byteToHex b hb
  rw [byteToHex, fromHex_cons2] at h
  simp only [List.cons.injEq] at h
  simp only [byteToHex, List.cons_append, List.nil_append, fromHex_cons2]
  rw [h.1]

theorem fromHex_upper_byteToHex_append (b : Nat) (hb : b < 256)
    (rest : List Char) :
    fromHex ((byteToHex b).map charUpper ++ rest) = b :: fromHex rest := by
  have h := fromHex_upper_byteToHex b hb
  rw [byteToHex, List.map_cons, List.map_cons, List.map_nil, fromHex_cons2] at h
  simp only [List.cons.injEq] at h
  simp only [byteToHex, List.map_cons, List.map_nil, List.cons_append,
    List.nil_append, fromHex_cons2]
  rw [h.1]

theorem fromHex_bytesToHex : ∀ l : List Nat, (∀ x ∈ l, x < 256) →
    fromHex (bytesToHex l) = l := by
  intro l
  induction l with
  | nil => intro _; rfl
  | cons x xs ih =>
    intro hx
    simp only [bytesToHex, List.map_cons, List.flatten_cons]
    rw [fromHex_byteToHex_append x (hx x (by simp)) _]
    rw [show (List.map byteToHex xs).flatten = bytesToHex xs from rfl]
    rw [ih (fun y hy => hx y (by simp [hy]))]

theorem fromHex_upper_bytesToHex : ∀ l : List Nat, (∀ x ∈ l, x < 256) →
    fromHex ((bytesToHex l).map charUpper) = l := by
  intro l
  induction l with
  | nil => intro _; rfl
  | cons x xs ih =>
    intro hx
    simp only [bytesToHex, List.map_cons, List.flatten_cons, List.map_append]
    rw [fromHex_upper_byteToHex_append x (hx x (by simp)) _]
    rw [show (List.map byteToHex xs).flatten = bytesToHex xs from rfl]
    rw [ih (fun y hy => hx y (by simp [hy]))]

theorem pySplit_cons (sep c : Char) (rest : List Char) :
    pySplit sep (c :: rest) =
      (if c = sep then [] :: pySplit sep rest
      else
        match pySplit sep rest with
        | g :: gs => (c :: g) :: gs
        | [] => [[c]]) := rfl

theorem pySplit_no_sep (sep : Char) : ∀ l : List Char,
    (∀ c ∈ l, c ≠ sep) → pySplit sep l = [l]
  | [], _ => rfl
  | c :: cs, h => by
    rw [pySplit_cons, if_neg (h c (by simp)),
      pySplit_no_sep sep cs (fun x hx => h x (by simp [hx]))]

theorem pySplit_append (sep : Char) : ∀ l₁ : List Char,
    (∀ c ∈ l₁, c ≠ sep) → ∀ l₂ : List Char,
    pySplit sep (l₁ ++ sep :: l₂) = l₁ :: pySplit sep l₂
  | [], _, l₂ => by
    rw [List.nil_append, pySplit_cons, if_pos rfl]
  | c :: cs, h, l₂ => by
    rw [List.cons_append, pySplit_cons, if_neg (h c (by simp)),
      pySplit_append sep cs (fun x hx => h x (by simp [hx])) l₂]

theorem parse_uuid_like_step (s : List Char) (g1 g2 g3 g4 g5 : List Char)
    (h : pySplit '-' s = [g1, g2, g3, g4, g5]) :
    parse_uuid_like s =
      (if g1.length = 8 ∧ g2.length = 4 ∧ g3.length = 4 ∧ g4.length = 4 ∧
          g5.length = 12 then
        if (g1 ++ g2 ++ g3 ++ g4 ++ g5).all isHexDigit then
          .ok (fromHex g1, fromHex g2, fromHex g3, fromHex g4, fromHex g5)
        else
          .error (.valueError "Some characters are not valid for hex.")
      else
        .error (.valueError "Some blocks do not meet the length requirements.")) := by
  unfold parse_uuid_like
  rw [h]

theorem joinSep5 (sep : Char) (g1 g2 g3 g4 g5 : List Char) :
    joinSep sep [g1, g2, g3, g4, g5] =
      g1 ++ sep :: (g2 ++ sep :: (g3 ++ sep :: (g4 ++ sep :: g5))) := rfl

theorem pySplit_joinSep5 (g1 g2 g3 g4 g5 : List Char)
    (h1 : ∀ c ∈ g1, c ≠ '-') (h2 : ∀ c ∈ g2, c ≠ '-')
    (h3 : ∀ c ∈ g3, c ≠ '-') (h4 : ∀ c ∈ g4, c ≠ '-')
    (h5 : ∀ c ∈ g5, c ≠ '-') :
    pySplit '-' (joinSep '-' [g1, g2, g3, g4, g5]) = [g1, g2, g3, g4, g5] := by
  rw [joinSep5, pySplit_append '-' g1 h1, pySplit_append '-' g2 h2,
    pySplit_append '-' g3 h3, pySplit_append '-' g4 h4,
    pySplit_no_sep '-' g5 h5]

theorem charUpper_hyphen : charUpper '-' = '-' := by decide

/-- C5.  For every 5-tuple of byte strings with widths `[4, 2, 2, 2, 6]`,
`make_uuid_like` succeeds, its output consists of lowercase hex digits
and hyphens, `parse_uuid_like` of that output returns exactly the
original blocks, and parsing also succeeds case-insensitively (on the
uppercased text). -/
theorem C5_uuid_codec (b1 b2 b3 b4 b5 : List Nat)
    (h1 : b1.length = 4) (h2 : b2.length = 2) (h3 : b3.length = 2)
    (h4 : b4.length = 2) (h5 : b5.length = 6)
    (hb : ∀ x ∈ b1 ++ b2 ++ b3 ++ b4 ++ b5, x < 256) :
    ∃ s, make_uuid_like (b1, b2, b3, b4, b5) = .ok s ∧
      parse_uuid_like s = .ok (b1, b2, b3, b4, b5) ∧
      (∀ c ∈ s, c = '-' ∨ c ∈ "0123456789abcdef".toList) ∧
      parse_uuid_like (s.map charUpper) = .ok (b1, b2, b3, b4, b5) := by
  have hb1 : ∀ x ∈ b1, x < 256 := fun x hx => hb x (by simp [hx])
  have hb2 : ∀ x ∈ b2, x < 256 := fun x hx => hb x (by simp [hx])
  have hb3 : ∀ x ∈ b3, x < 256 := fun x hx => hb x (by simp [hx])
  have hb4 : ∀ x ∈ b4, x < 256 := fun x hx => hb x (by simp [hx])
  have hb5 : ∀ x ∈ b5, x < 256 := fun x hx => hb x (by simp [hx])
  have hno : ∀ l : List Nat, ∀ c ∈ bytesToHex l, c ≠ '-' :=
    bytesToHex_forall _ (fun n => (hexDigitChar_props n).1)
  have hhex : ∀ l : List Nat, ∀ c ∈ bytesToHex l, isHexDigit c = true :=
    bytesToHex_forall _ (fun n => (hexDigitChar_props n).2.1)
  have hmem : ∀ l : List Nat, ∀ c ∈ bytesToHex l, c ∈ "0123456789abcdef".toList :=
    bytesToHex_forall _ hexChar_mem
  have hnoU : ∀ l : List Nat, ∀ c ∈ (bytesToHex l).map charUpper, c ≠ '-' := by
    intro l c hc
    obtain ⟨c', hc', rfl⟩ := List.mem_map.mp hc
    exact bytesToHex_forall (fun d => charUpper d ≠ '-')
      (fun n => (hexDigitChar_props n).2.2.1) l c' hc'
  have hhexU : ∀ l : List Nat, ∀ c ∈ (bytesToHex l).map charUpper,
      isHexDigit c = true := by
    intro l c hc
    obtain ⟨c', hc', rfl⟩ := List.mem_map.mp hc
    exact bytesToHex_forall (fun d => isHexDigit (charUpper d) = true)
      (fun n => (hexDigitChar_props n).2.2.2) l c' hc'
  refine ⟨joinSep '-' [bytesToHex b1, bytesToHex b2, bytesToHex b3,
    bytesToHex b4, bytesToHex b5], ?_, ?_, ?_, ?_⟩
  · unfold make_uuid_like
    rw [if_pos ⟨h1, h2, h3, h4, h5⟩]
  · rw [parse_uuid_like_step _ (bytesToHex b1) (bytesToHex b2) (bytesToHex b3)
      (bytesToHex b4) (bytesToHex b5)
      (pySplit_joinSep5 _ _ _ _ _ (hno b1) (hno b2) (hno b3) (hno b4) (hno b5))]
    rw [if_pos (by simp [bytesToHex_length, h1, h2, h3, h4, h5])]
    rw [if_pos (by
      simp only [List.all_eq_true, List.mem_append]
      rintro c ((((hc | hc) | hc) | hc) | hc)
      · exact hhex b1 c hc
      · exact hhex b2 c hc
      · exact hhex b3 c hc
      · exact hhex b4 c hc
      · exact hhex b5 c hc)]
    rw [fromHex_bytesToHex b1 hb1, fromHex_bytesToHex b2 hb2,
      fromHex_bytesToHex b3 hb3, fromHex_bytesToHex b4 hb4,
      fromHex_bytesToHex b5 hb5]
  · intro c hc
    rw [joinSep5] at hc
    simp only [List.mem_append, List.mem_cons] at hc
    rcases hc with hc | hc | hc | hc | hc | hc | hc | hc | hc
    · exact Or.inr (hmem b1 c hc)
    · exact Or.inl hc
    · exact Or.inr (hmem b2 c hc)
    · exact Or.inl hc
    · exact Or.inr (hmem b3 c hc)
    · exact Or.inl hc
    · exact Or.inr (hmem b4 c hc)
    · exact Or.inl hc
    · exact Or.inr (hmem b5 c hc)
  · have hmap : (joinSep '-' [bytesToHex b1, bytesToHex b2, bytesToHex b3,
        bytesToHex b4, bytesToHex b5]).map charUpper =
        joinSep '-' [(bytesToHex b1).map charUpper, (bytesToHex b2).map charUpper,
          (bytesToHex b3).map charUpper, (bytesToHex b4).map charUpper,
          (bytesToHex b5).map charUpper] := by
      rw [joinSep5, joinSep5]
      simp [List.map_append, charUpper_hyphen]
    rw [hmap]
    rw [parse_uuid_like_step _ _ _ _ _ _
      (pySplit_joinSep5 _ _ _ _ _ (hnoU b1) (hnoU b2) (hnoU b3) (hnoU b4) (hnoU b5))]
    rw [if_pos (by simp [bytesToHex_length, h1, h2, h3, h4, h5])]
    rw [if_pos (by
      simp only [List.all_eq_true, List.mem_append]
      rintro c ((((hc | hc) | hc) | hc) | hc)
      · exact hhexU b1 c hc
      · exact hhexU b2 c hc
      · exact hhexU b3 c hc
      · exact hhexU b4 c hc
      · exact hhexU b5 c hc)]
    rw [fromHex_upper_bytesToHex b1 hb1, fromHex_upper_bytesToHex b2 hb2,
      fromHex_upper_bytesToHex b3 hb3, fromHex_upper_bytesToHex b4 hb4,
      fromHex_upper_bytesToHex b5 hb5]

/-- Witness for C5 at a concrete block tuple. -/
theorem C5_uuid_codec_witness :
    ∃ s, make_uuid_like ([0, 17, 171, 255], [1, 2], [3, 4], [250, 9],
      [5, 6, 7, 8, 9, 10]) = .ok s ∧
      parse_uuid_like s = .ok ([0, 17, 171, 255], [1, 2], [3, 4], [250, 9],
        [5, 6, 7, 8, 9, 10]) ∧
      (∀ c ∈ s, c = '-' ∨ c ∈ "0123456789abcdef".toList) ∧
      parse_uuid_like (s.map charUpper) = .ok ([0, 17, 171, 255], [1, 2],
        [3, 4], [250, 9], [5, 6, 7, 8, 9, 10]) :=
  C5_uuid_codec [0, 17, 171, 255] [1, 2] [3, 4] [250, 9] [5, 6, 7, 8, 9, 10]
    (by decide) (by decide) (by decide) (by decide) (by decide) (by decide)

/-- `ValidatableFlag.__as_uuid__`: layout
`encrypted_data[4] | partial_password[2] | decrypted_data_checksum[2] |
signature[1] + challenge_id[1] | expected_hash[6]`. -/
def ValidatableFlag.asUuid (v : ValidatableFlag) : UuidBlocks :=
  (v.encrypted_data, v.partial_password, v.decrypted_data_checksum,
    [v.signature.toNat, v.challenge_id.toNat], v.expected_hash)

/-- `ValidatableFlag.__from_uuid__`: unpack block 4 into
`(signature, challenge_id)` (a `ValueError` if its width is not 2) and
rebuild through the validating constructor. -/
def ValidatableFlag.fromUuid (S : Sha1Model) (u : UuidBlocks) :
    Except Err ValidatableFlag :=
  match u.2.2.2.1 with
  | [sig, id] =>
      ValidatableFlag.make S u.1 u.2.1 u.2.2.1 ((id : Nat) : Int) u.2.2.2.2
        ((sig : Nat) : Int)
  | _ => .error (.valueError "not enough values to unpack")

/-- `translate_into_uuid_like` specialised to `ValidatableFlag`. -/
def translate_into_uuid_like (v : ValidatableFlag) : Except Err (List Char) :=
  make_uuid_like v.asUuid

/-- `translate_from_uuid_like(ValidatableFlag, uuid)`. -/
def translate_from_uuid_like (S : Sha1Model) (s : List Char) :
    Except Err ValidatableFlag :=
  match parse_uuid_like s with
  | .error e => .error e
  | .ok u => ValidatableFlag.fromUuid S u

/-- `_derive_key(length, password)`:
`bytes(random.Random(password).choices(range(0xFF), k=length * 2))`. -/
def derive_key {α : Type} (R : RandModel α) (length : Nat) (password : α) :
    List Nat :=
  R.choices password (length * 2)

/-- The per-block body of `_fix_data`: pad one block with zero bytes up to
`size` (a `ValueError` if the block is longer than `size`). -/
def fixBlock (size : Nat) (block : List Nat) : List Nat :=
  block ++ List.replicate ((size - block.length % size) % size) 0

/-- `_fix_data(data, size)`: pad every block to `size`, failing on any
block longer than `size`. -/
def fix_data (size : Nat) : List (List Nat) → Except Err (List (List Nat))
  | [] => .ok []
  | block :: rest =>
      if size < block.length then
        .error (.valueError "Block is too big to fix.")
      else
        match fix_data size rest with
        | .error e => .error e
        | .ok blocks => .ok (fixBlock size block :: blocks)

/-- `checksum(data, length)`: the byte sum masked to `length` bytes,
big-endian. -/
def checksum (data : List Nat) (length : Nat) : List Nat :=
  toBytesBE length (data.sum &&& (0x100 ^ length - 1))

/-- The flag-emitting loop of `generate_flags`: for each consecutive data
block take the next 4 ciphertext bytes and the next 2 password bytes, and
construct a `Flag` with the running `challenge_id`. -/
def flagLoop (encrypted password : List Nat) :
    List (List Nat) → Nat → Except Err (List Flag)
  | [], _ => .ok []
  | part :: rest, seq =>
      match Flag.make (encrypted.take 4) (password.take 2) (checksum part 2)
          ((seq : Nat) : Int) with
      | .error e => .error e
      | .ok f =>
          match flagLoop (encrypted.drop 4) (password.drop 2) rest (seq + 1) with
          | .error e => .error e
          | .ok fs => .ok (f :: fs)

/-- `generate_flags(data, password)`: reject zero bytes, pad every block to
4 bytes, concatenate, derive the effective password, build one shared
cipher keyed by the whole concatenation's length, encrypt in one pass and
slice the ciphertext and keystream into flags. -/
def generate_flags {α : Type} (Rd : RandModel α) (Rc : RandModel (List Nat))
    (data : List (List Nat)) (password : α) : Except Err (List Flag) :=
  if data.any (fun block => block.contains 0) then
    .error (.valueError "NUL character is not allowed to appear in data.")
  else
    match fix_data 4 data with
    | .error e => .error e
    | .ok fixed =>
        match SimpleCrypter.init Rc (derive_key Rd fixed.length password)
            ((fixed.flatten.length : Nat) : Int) with
        | .error e => .error e
        | .ok crypt =>
            match crypt.encrypt fixed.flatten true with
            | .error e => .error e
            | .ok encrypted =>
                flagLoop encrypted (derive_key Rd fixed.length password) fixed 0

/-- The checksum-verifying loop of `decrypt_flags`: for each flag in sorted
order take the next 4 decrypted bytes, compare checksums, and return the
block with its trailing zero bytes stripped. -/
def decryptLoop (decrypted : List Nat) : List Flag → Except Err (List (List Nat))
  | [] => .ok []
  | flag :: rest =>
      if flag.decrypted_data_checksum ≠ checksum (decrypted.take 4) 2 then
        .error (.validationFailed "Decrypted data checksum validation failed.")
      else
        match decryptLoop (decrypted.drop 4) rest with
        | .error e => .error e
        | .ok blocks => .ok (rstripZero (decrypted.take 4) :: blocks)

/-- The comparator of `sorted(flags, key=lambda flag: flag.challenge_id)`. -/
def flagLe (a b : Flag) : Bool :=
  decide (a.challenge_id ≤ b.challenge_id)

/-- `decrypt_flags(flags)`: sort by `challenge_id`, concatenate the
ciphertext and password fragments, rebuild the shared cipher, decrypt in
one pass and split the result back into checksum-verified blocks. -/
def decrypt_flags (Rc : RandModel (List Nat)) (flags : List Flag) :
    Except Err (List (List Nat)) :=
  match SimpleCrypter.init Rc
      (((flags.mergeSort flagLe).map Flag.partial_password).flatten)
      ((((flags.mergeSort flagLe).map Flag.encrypted_data).flatten.length : Nat) : Int) with
  | .error e => .error e
  | .ok crypt =>
      match crypt.decrypt
          (((flags.mergeSort flagLe).map Flag.encrypted_data).flatten) false with
      | .error e => .error e
      | .ok decrypted => decryptLoop decrypted (flags.mergeSort flagLe)

/-- A runtime flag value as Python sees it: either an instance of the base
class `Flag` or an instance of the subclass `ValidatableFlag`. -/
inductive AnyFlag where
  | base (f : Flag) : AnyFlag
  | validatable (v : ValidatableFlag) : AnyFlag
deriving DecidableEq

/-- Python `==` between flag values: the `__eq__` generated by `dataclass`
compares field tuples only when both operands have the same class, and
otherwise returns `NotImplemented`, which makes `==` fall back to
identity and evaluate to `False` for a `Flag` versus a
`ValidatableFlag`. -/
def pyFlagEq : AnyFlag → AnyFlag → Bool
  | .base f, .base g => decide (f = g)
  | .validatable v, .validatable w => decide (v = w)
  | _, _ => false

/-- `make_uuid_like_flag(flag)`: upgrade a base flag via `from_general`,
then translate to the UUID-like text. -/
def make_uuid_like_flag (S : Sha1Model) : AnyFlag → Except Err (List Char)
  | .base f =>
      match ValidatableFlag.from_general S f with
      | .error e => .error e
      | .ok v => translate_into_uuid_like v
  | .validatable v => translate_into_uuid_like v

/-- `validate_uuid_like_flag(flag)`. -/
def validate_uuid_like_flag (S : Sha1Model) (s : List Char) :
    Except Err ValidatableFlag :=
  translate_from_uuid_like S s

/-- `wrap_flag(flag)`: the UUID-like text inside the literal envelope
`flag{...}`. -/
def wrap_flag (S : Sha1Model) (a : AnyFlag) : Except Err (List Char) :=
  match make_uuid_like_flag S a with
  | .error e => .error e
  | .ok u => .ok ("flag\x7b".toList ++ u ++ ['\x7d'])

/-- Python `str.startswith` on character lists. -/
def pyStartsWith : List Char → List Char → Bool
  | [], _ => true
  | _, [] => false
  | a :: as_, b :: bs => a == b && pyStartsWith as_ bs

/-- Python `str.endswith` on character lists. -/
def pyEndsWith (suffix s : List Char) : Bool :=
  pyStartsWith suffix.reverse s.reverse

/-- `unwrap_flag(flag)`: require the literal prefix `flag{` and suffix
`}`, strip them (`flag[5:-1]`) and delegate to the validating parse. -/
def unwrap_flag (S : Sha1Model) (s : List Char) : Except Err ValidatableFlag :=
  if !(pyStartsWith "flag\x7b".toList s && pyEndsWith "\x7d".toList s) then
    .error (.valueError "Flag should be wrapped with 'flag\x7b\x7d'")
  else
    validate_uuid_like_flag S ((s.drop 5).dropLast)

theorem toBytesBE_length : ∀ (n v : Nat), (toBytesBE n v).length = n
  | 0, _ => rfl
  | n + 1, v => by
    simp [toBytesBE, toBytesBE_length n (v / 256)]

theorem checksum_length (data : List Nat) (n : Nat) :
    (checksum data n).length = n := toBytesBE_length n _

theorem checksum_append_zeros (b : List Nat) (m : Nat) :
    checksum (b ++ List.replicate m 0) 2 = checksum b 2 := by
  unfold checksum
  rw [List.sum_append, List.sum_replicate]
  simp

theorem checksum_two_eq_mod (b : List Nat) :
    checksum b 2 = toBytesBE 2 (b.sum % 65536) := by
  unfold checksum
  rw [(by norm_num : (0x100 : Nat) ^ 2 - 1 = 2 ^ 16 - 1),
    Nat.and_pow_two_sub_one_eq_mod]

theorem dropWhile_isEmpty_false {p : Nat → Bool} : ∀ {l : List Nat},
    (∃ x ∈ l, p x = false) → (List.dropWhile p l).isEmpty = false := by
  intro l
  induction l with
  | nil => rintro ⟨x, hx, -⟩; simp at hx
  | cons c cs ih =>
    rintro ⟨x, hx, hpx⟩
    rw [List.dropWhile_cons]
    by_cases hc : p c = true
    · rw [if_pos hc]
      rcases List.mem_cons.mp hx with rfl | hx2
      · exact absurd hc (by simp [hpx])
      · exact ih ⟨x, hx2, hpx⟩
    · rw [if_neg hc]
      rfl

theorem dropWhile_append_left {p : Nat → Bool} (l₁ l₂ : List Nat)
    (h : ∃ x ∈ l₁, p x = false) :
    List.dropWhile p (l₁ ++ l₂) = List.dropWhile p l₁ ++ l₂ := by
  rw [List.dropWhile_append, if_neg (by rw [dropWhile_isEmpty_false h]; simp)]

theorem rstripZero_append (l₁ l₂ : List Nat) (h : ∃ x ∈ l₂, x ≠ 0) :
    rstripZero (l₁ ++ l₂) = l₁ ++ rstripZero l₂ := by
  unfold rstripZero
  rw [List.reverse_append]
  obtain ⟨x, hx, hx0⟩ := h
  rw [dropWhile_append_left _ _ ⟨x, by simp [hx], by simpa using hx0⟩]
  rw [List.reverse_append, List.reverse_reverse]

theorem dropWhile_replicate_zero_append : ∀ (m : Nat) (t : List Nat),
    List.dropWhile (· == 0) (List.replicate m 0 ++ t) =
      List.dropWhile (· == 0) t
  | 0, t => by simp
  | m + 1, t => by
    rw [List.replicate_succ, List.cons_append, List.dropWhile_cons,
      if_pos (by simp), dropWhile_replicate_zero_append m t]

theorem rstripZero_pad (b : List Nat) (m : Nat) (hne : b ≠ []) (h0 : 0 ∉ b) :
    rstripZero (b ++ List.replicate m 0) = b := by
  unfold rstripZero
  rw [List.reverse_append, List.reverse_replicate,
    dropWhile_replicate_zero_append]
  rcases hrev : b.reverse with _ | ⟨c, t⟩
  · exact absurd (by simpa using congrArg List.reverse hrev) hne
  · have hc : c ∈ b := by
      have : c ∈ b.reverse := by rw [hrev]; simp
      simpa using this
    have hc0 : c ≠ 0 := fun h => h0 (h ▸ hc)
    rw [List.dropWhile_cons, if_neg (by simpa using hc0), ← hrev,
      List.reverse_reverse]

theorem rstripZero_no_zero (b : List Nat) (h0 : 0 ∉ b) : rstripZero b = b := by
  rcases b with _ | ⟨x, t⟩
  · rfl
  · have := rstripZero_pad (x :: t) 0 (by simp) h0
    simpa using this

theorem fixBlock_length_pos (b : List Nat) (h1 : b ≠ []) (h2 : b.length ≤ 4) :
    (fixBlock 4 b).length = 4 := by
  have hb : 0 < b.length := List.length_pos.mpr h1
  unfold fixBlock
  rw [List.length_append, List.length_replicate]
  interval_cases h : b.length <;> simp

theorem fixBlock_nil : fixBlock 4 [] = [] := rfl

theorem fixBlock_eq (b : List Nat) :
    fixBlock 4 b = b ++ List.replicate ((4 - b.length % 4) % 4) 0 := rfl

theorem fix_data_ok : ∀ bs : List (List Nat), (∀ b ∈ bs, b.length ≤ 4) →
    fix_data 4 bs = .ok (bs.map (fixBlock 4))
  | [], _ => rfl
  | b :: rest, h => by
    unfold fix_data
    rw [if_neg (by have := h b (by simp); omega),
      fix_data_ok rest (fun x hx => h x (by simp [hx]))]
    rfl

theorem fix_data_ok_inv : ∀ bs fixed : List (List Nat),
    fix_data 4 bs = .ok fixed →
    fixed = bs.map (fixBlock 4) ∧ ∀ b ∈ bs, b.length ≤ 4 := by
  intro bs
  induction bs with
  | nil =>
    intro fixed h
    refine ⟨?_, by simp⟩
    unfold fix_data at h
    simpa using (Except.ok.inj h).symm
  | cons b rest ih =>
    intro fixed h
    unfold fix_data at h
    split_ifs at h with hb
    rcases hrec : fix_data 4 rest with e | blocks
    · rw [hrec] at h; simp at h
    · rw [hrec] at h
      obtain ⟨hfix, hle⟩ := ih blocks hrec
      refine ⟨?_, ?_⟩
      · rw [← (Except.ok.inj h), hfix]
        rfl
      · intro x hx
        rcases List.mem_cons.mp hx with rfl | hx2
        · omega
        · exact hle x hx2

theorem fix_data_error (bs : List (List Nat)) (h : ∃ b ∈ bs, 4 < b.length) :
    ∃ e, fix_data 4 bs = .error e := by
  induction bs with
  | nil => obtain ⟨b, hb, -⟩ := h; simp at hb
  | cons b rest ih =>
    unfold fix_data
    by_cases hb : 4 < b.length
    · rw [if_pos hb]
      exact ⟨_, rfl⟩
    · rw [if_neg hb]
      obtain ⟨x, hx, hxl⟩ := h
      rcases List.mem_cons.mp hx with rfl | hx2
      · omega
      · obtain ⟨e, he⟩ := ih ⟨x, hx2, hxl⟩
        rw [he]
        exact ⟨e, rfl⟩

/-- The flags `generate_flags` emits, described positionally: for the
`i`-th part, the 4-byte ciphertext slice at offset `4i`, the 2-byte
keystream slice at offset `2i`, the checksum of the (padded) part, and
`challenge_id = seq + i`. -/
def mkFlagsSpec (E ks : List Nat) : List (List Nat) → Nat → List Flag
  | [], _ => []
  | p :: rest, seq =>
      ⟨E.take 4, ks.take 2, checksum p 2, ((seq : Nat) : Int)⟩ ::
        mkFlagsSpec (E.drop 4) (ks.drop 2) rest (seq + 1)

theorem mkFlagsSpec_length : ∀ (E ks : List Nat) (parts : List (List Nat))
    (seq : Nat), (mkFlagsSpec E ks parts seq).length = parts.length
  | _, _, [], _ => rfl
  | E, ks, p :: rest, seq => by
    simp [mkFlagsSpec, mkFlagsSpec_length (E.drop 4) (ks.drop 2) rest (seq + 1)]

theorem mkFlagsSpec_id_ge : ∀ (E ks : List Nat) (parts : List (List Nat))
    (seq : Nat) (f : Flag), f ∈ mkFlagsSpec E ks parts seq →
    ((seq : Nat) : Int) ≤ f.challenge_id
  | E, ks, p :: rest, seq, f, h => by
    rcases List.mem_cons.mp h with rfl | h2
    · simp
    · have := mkFlagsSpec_id_ge (E.drop 4) (ks.drop 2) rest (seq + 1) f h2
      omega

theorem mkFlagsSpec_pairwise : ∀ (E ks : List Nat) (parts : List (List Nat))
    (seq : Nat), (mkFlagsSpec E ks parts seq).Pairwise
      (fun a b => a.challenge_id < b.challenge_id)
  | _, _, [], _ => List.Pairwise.nil
  | E, ks, p :: rest, seq => by
    refine List.Pairwise.cons ?_
      (mkFlagsSpec_pairwise (E.drop 4) (ks.drop 2) rest (seq + 1))
    intro f hf
    have := mkFlagsSpec_id_ge (E.drop 4) (ks.drop 2) rest (seq + 1) f hf
    simp only [Flag.challenge_id] at this ⊢
    omega

theorem mkFlagsSpec_ids : ∀ (E ks : List Nat) (parts : List (List Nat))
    (seq : Nat), (mkFlagsSpec E ks parts seq).map Flag.challenge_id =
      (List.range' seq parts.length).map (fun n : Nat => (n : Int))
  | _, _, [], _ => rfl
  | E, ks, p :: rest, seq => by
    simp only [List.length_cons]
    rw [List.range'_succ]
    simp only [mkFlagsSpec, List.map_cons]
    rw [mkFlagsSpec_ids (E.drop 4) (ks.drop 2) rest (seq + 1)]

theorem mkFlagsSpec_encrypted : ∀ (E ks : List Nat) (parts : List (List Nat))
    (seq : Nat), (∀ p ∈ parts, p.length = 4) → E.length = 4 * parts.length →
    ((mkFlagsSpec E ks parts seq).map Flag.encrypted_data).flatten = E
  | E, ks, [], seq, _, hE => by
    simp only [mkFlagsSpec, List.map_nil, List.flatten_nil]
    exact (List.length_eq_zero.mp (by simpa using hE)).symm
  | E, ks, p :: rest, seq, hp, hE => by
    simp only [mkFlagsSpec, List.map_cons, List.flatten_cons]
    rw [mkFlagsSpec_encrypted (E.drop 4) (ks.drop 2) rest (seq + 1)
      (fun x hx => hp x (by simp [hx]))
      (by rw [List.length_drop]; simp at hE; omega)]
    exact List.take_append_drop 4 E

theorem mkFlagsSpec_password : ∀ (E ks : List Nat) (parts : List (List Nat))
    (seq : Nat), ks.length = 2 * parts.length →
    ((mkFlagsSpec E ks parts seq).map Flag.partial_password).flatten = ks
  | E, ks, [], seq, hks => by
    simp only [mkFlagsSpec, List.map_nil, List.flatten_nil]
    exact (List.length_eq_zero.mp (by simpa using hks)).symm
  | E, ks, p :: rest, seq, hks => by
    simp only [mkFlagsSpec, List.map_cons, List.flatten_cons]
    rw [mkFlagsSpec_password (E.drop 4) (ks.drop 2) rest (seq + 1)
      (by rw [List.length_drop]; simp at hks ⊢; omega)]
    exact List.take_append_drop 2 ks

theorem mkFlagsSpec_getElem : ∀ (E ks : List Nat) (parts : List (List Nat))
    (seq : Nat) (i : Nat), i < parts.length →
    (mkFlagsSpec E ks parts seq)[i]? =
      some ⟨(E.drop (4 * i)).take 4, (ks.drop (2 * i)).take 2,
        checksum (parts.getD i []) 2, ((seq + i : Nat) : Int)⟩
  | E, ks, p :: rest, seq, 0, _ => by
    simp [mkFlagsSpec, List.getD]
  | E, ks, p :: rest, seq, i + 1, hi => by
    have ih := mkFlagsSpec_getElem (E.drop 4) (ks.drop 2) rest (seq + 1) i
      (by simpa using Nat.lt_of_succ_lt_succ hi)
    simp only [mkFlagsSpec, List.getElem?_cons_succ]
    rw [ih, List.drop_drop, List.drop_drop]
    have h1 : 4 + 4 * i = 4 * (i + 1) := by omega
    have h2 : 2 + 2 * i = 2 * (i + 1) := by omega
    have h3 : seq + 1 + i = seq + (i + 1) := by omega
    rw [h1, h2, h3]
    rfl

theorem flagLoop_ok : ∀ (parts : List (List Nat)) (E ks : List Nat) (seq : Nat),
    4 * parts.length ≤ E.length → 2 * parts.length ≤ ks.length →
    seq + parts.length ≤ 256 →
    flagLoop E ks parts seq = .ok (mkFlagsSpec E ks parts seq)
  | [], _, _, _, _, _, _ => rfl
  | p :: rest, E, ks, seq, hE, hks, hseq => by
    simp only [List.length_cons] at hE hks hseq
    unfold flagLoop
    rw [Flag.make_ok _ _ _ _
      (by rw [List.length_take]; omega)
      (by rw [List.length_take]; omega)
      (checksum_length p 2)
      (by omega) (by omega)]
    rw [flagLoop_ok rest (E.drop 4) (ks.drop 2) (seq + 1)
      (by rw [List.length_drop]; omega)
      (by rw [List.length_drop]; omega)
      (by omega)]
    rfl

theorem flagLoop_ok_inv : ∀ (parts : List (List Nat)) (E ks : List Nat)
    (seq : Nat) (fs : List Flag), flagLoop E ks parts seq = .ok fs →
    4 * parts.length ≤ E.length := by
  intro parts
  induction parts with
  | nil => intro E ks seq fs h; simp
  | cons p rest ih =>
    intro E ks seq fs h
    unfold flagLoop at h
    rcases hmk : Flag.make (E.take 4) (ks.take 2) (checksum p 2)
        ((seq : Nat) : Int) with e | f
    · rw [hmk] at h; simp at h
    · rw [hmk] at h
      obtain ⟨h4, -, -, -, -, -⟩ :=
        Flag.make_ok_inv _ _ _ _ _ hmk
      rcases hrec : flagLoop (E.drop 4) (ks.drop 2) rest (seq + 1) with e | fs2
      · rw [hrec] at h; simp at h
      · have := ih (E.drop 4) (ks.drop 2) (seq + 1) fs2 hrec
        rw [List.length_take] at h4
        rw [List.length_drop] at this
        simp only [List.length_cons]
        omega

theorem decryptLoop_spec : ∀ (bs : List (List Nat)) (E ks : List Nat)
    (seq : Nat), bs ≠ [] → (∀ b ∈ bs, b ≠ [] ∧ 0 ∉ b ∧ b.length ≤ 4) →
    decryptLoop (rstripZero ((bs.map (fixBlock 4)).flatten))
      (mkFlagsSpec E ks (bs.map (fixBlock 4)) seq) = .ok bs
  | [], _, _, _, hne, _ => absurd rfl hne
  | [b], E, ks, seq, _, hb => by
    obtain ⟨hbne, hb0, hble⟩ := hb b (by simp)
    have hflat : ([b].map (fixBlock 4)).flatten = b ++
        List.replicate ((4 - b.length % 4) % 4) 0 := by
      simp [fixBlock_eq]
    rw [hflat, rstripZero_pad b _ hbne hb0]
    simp only [List.map_cons, List.map_nil, mkFlagsSpec]
    unfold decryptLoop
    rw [List.take_of_length_le hble]
    rw [if_neg (by
      rw [fixBlock_eq, checksum_append_zeros]
      simp)]
    rw [List.drop_eq_nil_of_le (by omega)]
    unfold decryptLoop
    rw [rstripZero_no_zero b hb0]
  | b :: b2 :: rest, E, ks, seq, _, hb => by
    obtain ⟨hbne, hb0, hble⟩ := hb b (by simp)
    obtain ⟨hb2ne, hb20, -⟩ := hb b2 (by simp)
    have hlen : (fixBlock 4 b).length = 4 := fixBlock_length_pos b hbne hble
    have hflat : ((b :: b2 :: rest).map (fixBlock 4)).flatten =
        fixBlock 4 b ++ ((b2 :: rest).map (fixBlock 4)).flatten := by
      simp
    have hnonzero : ∃ x ∈ ((b2 :: rest).map (fixBlock 4)).flatten, x ≠ 0 := by
      obtain ⟨c, hc⟩ := List.exists_mem_of_ne_nil b2 hb2ne
      refine ⟨c, ?_, fun h => hb20 (h ▸ hc)⟩
      simp only [List.map_cons, List.flatten_cons]
      exact List.mem_append_left _ (by
        rw [fixBlock_eq]
        exact List.mem_append_left _ hc)
    rw [hflat, rstripZero_append _ _ hnonzero]
    simp only [List.map_cons, mkFlagsSpec]
    unfold decryptLoop
    rw [List.take_left' hlen]
    rw [if_neg (by
      rw [fixBlock_eq, checksum_append_zeros]
      simp)]
    rw [List.drop_left' hlen]
    have ih := decryptLoop_spec (b2 :: rest) (E.drop 4) (ks.drop 2) (seq + 1)
      (by simp) (fun x hx => hb x (by simp at hx ⊢; tauto))
    simp only [List.map_cons, mkFlagsSpec] at ih
    rw [ih]
    rw [fixBlock_eq, rstripZero_pad b _ hbne hb0]

theorem init_ok_of {α : Type} (R : RandModel α) (pw : α) (L : Nat)
    (h1 : 0 < L) (h2 : L ≤ 255) :
    SimpleCrypter.init R pw (L : Int) =
      .ok ⟨R.sample1 pw L, R.sample2 pw L⟩ := by
  unfold SimpleCrypter.init
  rw [if_neg (by omega), if_neg (by omega), Int.toNat_natCast]

theorem fixBlock_length_cases (b : List Nat) (h : b.length ≤ 4) :
    (b = [] ∧ (fixBlock 4 b).length = 0) ∨
    (b ≠ [] ∧ (fixBlock 4 b).length = 4) := by
  rcases b with _ | ⟨x, t⟩
  · exact Or.inl ⟨rfl, rfl⟩
  · exact Or.inr ⟨by simp, fixBlock_length_pos _ (by simp) h⟩

theorem flatten_fix_le : ∀ bs : List (List Nat), (∀ b ∈ bs, b.length ≤ 4) →
    ((bs.map (fixBlock 4)).flatten).length ≤ 4 * bs.length
  | [], _ => by simp
  | b :: rest, h => by
    have hrec := flatten_fix_le rest (fun x hx => h x (by simp [hx]))
    have hb := fixBlock_length_cases b (h b (by simp))
    simp only [List.map_cons, List.flatten_cons, List.length_append,
      List.length_cons]
    rcases hb with ⟨-, hb⟩ | ⟨-, hb⟩ <;> omega

theorem flatten_fix_eq : ∀ bs : List (List Nat),
    (∀ b ∈ bs, b ≠ [] ∧ b.length ≤ 4) →
    ((bs.map (fixBlock 4)).flatten).length = 4 * bs.length
  | [], _ => by simp
  | b :: rest, h => by
    have hrec := flatten_fix_eq rest (fun x hx => h x (by simp [hx]))
    obtain ⟨hne, hle⟩ := h b (by simp)
    simp only [List.map_cons, List.flatten_cons, List.length_append,
      List.length_cons, hrec, fixBlock_length_pos b hne hle]
    omega

theorem nonempty_of_flatten_ge : ∀ bs : List (List Nat),
    (∀ b ∈ bs, b.length ≤ 4) →
    4 * bs.length ≤ ((bs.map (fixBlock 4)).flatten).length →
    ∀ b ∈ bs, b ≠ [] := by
  intro bs
  induction bs with
  | nil => intro _ _ b hb; simp at hb
  | cons b rest ih =>
    intro hle hge x hx
    have hrestle := flatten_fix_le rest (fun y hy => hle y (by simp [hy]))
    have hb := fixBlock_length_cases b (hle b (by simp))
    simp only [List.map_cons, List.flatten_cons, List.length_append,
      List.length_cons] at hge
    rcases List.mem_cons.mp hx with rfl | hx2
    · rcases hb with ⟨-, hb0⟩ | ⟨hne, -⟩
      · omega
      · exact hne
    · refine ih (fun y hy => hle y (by simp [hy])) ?_ x hx2
      rcases hb with ⟨-, hb0⟩ | ⟨-, hb4⟩ <;> omega

theorem parts_length_four (bs : List (List Nat))
    (h : ∀ b ∈ bs, b ≠ [] ∧ b.length ≤ 4) :
    ∀ p ∈ bs.map (fixBlock 4), p.length = 4 := by
  intro p hp
  obtain ⟨b, hb, rfl⟩ := List.mem_map.mp hp
  obtain ⟨hne, hle⟩ := h b hb
  exact fixBlock_length_pos b hne hle

theorem flagLe_trans (a b c : Flag) :
    flagLe a b = true → flagLe b c = true → flagLe a c = true := by
  simp only [flagLe, decide_eq_true_eq]
  omega

theorem flagLe_total (a b : Flag) : (flagLe a b || flagLe b a) = true := by
  simp only [flagLe, Bool.or_eq_true, decide_eq_true_eq]
  omega

theorem flagLe_key (a b : Flag) :
    flagLe a b = true → a.challenge_id ≤ b.challenge_id := by
  simp only [flagLe, decide_eq_true_eq]
  exact id

theorem sortFlags_eq (flags target : List Flag) (hp : flags.Perm target)
    (hs : target.Pairwise (fun a b => a.challenge_id < b.challenge_id)) :
    flags.mergeSort flagLe = target :=
  mergeSort_eq_of_key_sorted Flag.challenge_id flagLe flagLe_trans
    flagLe_total flagLe_key hp hs

theorem generate_flags_step {α : Type} (Rd : RandModel α)
    (Rc : RandModel (List Nat)) (bs : List (List Nat)) (pw : α)
    (fixed : List (List Nat))
    (hz : ¬(bs.any (fun block => block.contains 0) = true))
    (hfix : fix_data 4 bs = .ok fixed) :
    generate_flags Rd Rc bs pw =
      (match SimpleCrypter.init Rc (derive_key Rd fixed.length pw)
          ((fixed.flatten.length : Nat) : Int) with
      | .error e => .error e
      | .ok crypt =>
          match crypt.encrypt fixed.flatten true with
          | .error e => .error e
          | .ok encrypted =>
              flagLoop encrypted (derive_key Rd fixed.length pw) fixed 0) := by
  unfold generate_flags
  rw [if_neg hz, hfix]

theorem generate_flags_step2 {α : Type} (Rd : RandModel α)
    (Rc : RandModel (List Nat)) (bs : List (List Nat)) (pw : α)
    (fixed : List (List Nat)) (c : SimpleCrypter)
    (hz : ¬(bs.any (fun block => block.contains 0) = true))
    (hfix : fix_data 4 bs = .ok fixed)
    (hinit : SimpleCrypter.init Rc (derive_key Rd fixed.length pw)
      ((fixed.flatten.length : Nat) : Int) = .ok c) :
    generate_flags Rd Rc bs pw =
      (match c.encrypt fixed.flatten true with
      | .error e => .error e
      | .ok encrypted =>
          flagLoop encrypted (derive_key Rd fixed.length pw) fixed 0) := by
  rw [generate_flags_step Rd Rc bs pw fixed hz hfix, hinit]

theorem generate_flags_step3 {α : Type} (Rd : RandModel α)
    (Rc : RandModel (List Nat)) (bs : List (List Nat)) (pw : α)
    (fixed : List (List Nat)) (c : SimpleCrypter) (E : List Nat)
    (hz : ¬(bs.any (fun block => block.contains 0) = true))
    (hfix : fix_data 4 bs = .ok fixed)
    (hinit : SimpleCrypter.init Rc (derive_key Rd fixed.length pw)
      ((fixed.flatten.length : Nat) : Int) = .ok c)
    (henc : c.encrypt fixed.flatten true = .ok E) :
    generate_flags Rd Rc bs pw =
      flagLoop E (derive_key Rd fixed.length pw) fixed 0 := by
  rw [generate_flags_step2 Rd Rc bs pw fixed c hz hfix hinit, henc]

theorem decrypt_flags_step1 (Rc : RandModel (List Nat))
    (flags' flags : List Flag) (c : SimpleCrypter)
    (hsort : flags'.mergeSort flagLe = flags)
    (hinit : SimpleCrypter.init Rc ((flags.map Flag.partial_password).flatten)
      (((flags.map Flag.encrypted_data).flatten.length : Nat) : Int) = .ok c) :
    decrypt_flags Rc flags' =
      (match c.decrypt ((flags.map Flag.encrypted_data).flatten) false with
      | .error e => .error e
      | .ok decrypted => decryptLoop decrypted flags) := by
  unfold decrypt_flags
  rw [hsort, hinit]

theorem decrypt_flags_step2 (Rc : RandModel (List Nat))
    (flags' flags : List Flag) (c : SimpleCrypter) (D : List Nat)
    (hsort : flags'.mergeSort flagLe = flags)
    (hinit : SimpleCrypter.init Rc ((flags.map Flag.partial_password).flatten)
      (((flags.map Flag.encrypted_data).flatten.length : Nat) : Int) = .ok c)
    (hdec : c.decrypt ((flags.map Flag.encrypted_data).flatten) false = .ok D) :
    decrypt_flags Rc flags' = decryptLoop D flags := by
  rw [decrypt_flags_step1 Rc flags' flags c hsort hinit, hdec]

/-- The full behaviour of `generate_flags` on inputs it accepts: the shared
cipher is keyed by the whole padded concatenation, the ciphertext and
keystream are sliced positionally into flags, and `decrypt_flags` on any
permutation of those flags restores the original blocks. -/
theorem generate_structure {α : Type} (Rd : RandModel α)
    (Rc : RandModel (List Nat)) (bs : List (List Nat)) (pw : α)
    (hne : bs ≠ []) (h63 : bs.length ≤ 63)
    (hblocks : ∀ b ∈ bs, b ≠ [] ∧ 0 ∉ b ∧ b.length ≤ 4) :
    ∃ c E,
      SimpleCrypter.init Rc (derive_key Rd bs.length pw)
        (((bs.map (fixBlock 4)).flatten.length : Nat) : Int) = .ok c ∧
      c.encrypt (bs.map (fixBlock 4)).flatten true = .ok E ∧
      E.length = 4 * bs.length ∧
      generate_flags Rd Rc bs pw =
        .ok (mkFlagsSpec E (derive_key Rd bs.length pw) (bs.map (fixBlock 4)) 0) ∧
      ∀ flags', flags'.Perm
          (mkFlagsSpec E (derive_key Rd bs.length pw) (bs.map (fixBlock 4)) 0) →
        decrypt_flags Rc flags' = .ok bs := by
  have hgood : ∀ b ∈ bs, b ≠ [] ∧ b.length ≤ 4 :=
    fun b hb => ⟨(hblocks b hb).1, (hblocks b hb).2.2⟩
  have hz : ¬(bs.any (fun block => block.contains 0) = true) := by
    rw [List.any_eq_true]
    rintro ⟨b, hb, hc⟩
    exact (hblocks b hb).2.1 (by simpa using hc)
  have hfix : fix_data 4 bs = .ok (bs.map (fixBlock 4)) :=
    fix_data_ok bs (fun b hb => (hblocks b hb).2.2)
  have hlm : (bs.map (fixBlock 4)).length = bs.length := List.length_map _ _
  have hmlen : ((bs.map (fixBlock 4)).flatten).length = 4 * bs.length :=
    flatten_fix_eq bs hgood
  have hn1 : 0 < bs.length := List.length_pos.mpr hne
  have hinitB : SimpleCrypter.init Rc (derive_key Rd bs.length pw)
      (((bs.map (fixBlock 4)).flatten.length : Nat) : Int) =
      .ok ⟨Rc.sample1 (derive_key Rd bs.length pw) (4 * bs.length),
        Rc.sample2 (derive_key Rd bs.length pw) (4 * bs.length)⟩ := by
    rw [hmlen]
    exact init_ok_of Rc _ (4 * bs.length) (by omega) (by omega)
  obtain ⟨c, hcdef⟩ : ∃ c, c = (⟨Rc.sample1 (derive_key Rd bs.length pw)
      (4 * bs.length), Rc.sample2 (derive_key Rd bs.length pw)
      (4 * bs.length)⟩ : SimpleCrypter) := ⟨_, rfl⟩
  rw [← hcdef] at hinitB
  have hklen : c.keys.length = 4 * bs.length := by
    rw [hcdef]
    exact Rc.sample2_length _ _ (by omega)
  have hperm : c.shifts.Perm (List.range c.keys.length) := by
    rw [hklen, hcdef]
    exact Rc.sample1_perm _ _
  have hk : 0 < c.keys.length := by omega
  have hmod : ((bs.map (fixBlock 4)).flatten).length % c.keys.length = 0 := by
    rw [hmlen, hklen]
    exact Nat.mod_self _
  obtain ⟨E, henc, hElen, hdecT, hdecF⟩ :=
    crypter_roundtrip c hperm hk ((bs.map (fixBlock 4)).flatten) hmod true
  have hElen' : E.length = 4 * bs.length := by rw [hElen, hmlen]
  have hkslen : (derive_key Rd bs.length pw).length = 2 * bs.length := by
    unfold derive_key
    rw [Rd.choices_length]
    omega
  have hinitF : SimpleCrypter.init Rc
      (derive_key Rd (bs.map (fixBlock 4)).length pw)
      (((bs.map (fixBlock 4)).flatten.length : Nat) : Int) = .ok c := by
    rw [hlm]
    exact hinitB
  have hflags : flagLoop E (derive_key Rd (bs.map (fixBlock 4)).length pw)
      (bs.map (fixBlock 4)) 0 =
      .ok (mkFlagsSpec E (derive_key Rd (bs.map (fixBlock 4)).length pw)
        (bs.map (fixBlock 4)) 0) :=
    flagLoop_ok _ _ _ 0 (by rw [hlm, hElen']) (by rw [hlm]; omega)
      (by rw [hlm]; omega)
  have hgen : generate_flags Rd Rc bs pw =
      .ok (mkFlagsSpec E (derive_key Rd bs.length pw) (bs.map (fixBlock 4)) 0) := by
    rw [generate_flags_step3 Rd Rc bs pw (bs.map (fixBlock 4)) c E hz hfix
      hinitF henc, hflags, hlm]
  refine ⟨c, E, hinitB, henc, hElen', hgen, ?_⟩
  intro flags' hpermF
  have hsort : flags'.mergeSort flagLe =
      mkFlagsSpec E (derive_key Rd bs.length pw) (bs.map (fixBlock 4)) 0 :=
    sortFlags_eq flags' _ hpermF (mkFlagsSpec_pairwise _ _ _ _)
  have hejoin : ((mkFlagsSpec E (derive_key Rd bs.length pw)
      (bs.map (fixBlock 4)) 0).map Flag.encrypted_data).flatten = E :=
    mkFlagsSpec_encrypted _ _ _ _ (parts_length_four bs hgood)
      (by rw [hlm, hElen'])
  have hpjoin : ((mkFlagsSpec E (derive_key Rd bs.length pw)
      (bs.map (fixBlock 4)) 0).map Flag.partial_password).flatten =
      derive_key Rd bs.length pw :=
    mkFlagsSpec_password _ _ _ _ (by rw [hlm, hkslen])
  have hinit2 : SimpleCrypter.init Rc
      (((mkFlagsSpec E (derive_key Rd bs.length pw)
        (bs.map (fixBlock 4)) 0).map Flag.partial_password).flatten)
      ((((mkFlagsSpec E (derive_key Rd bs.length pw)
        (bs.map (fixBlock 4)) 0).map Flag.encrypted_data).flatten.length : Nat) : Int) =
      .ok c := by
    rw [hejoin, hpjoin, hElen]
    exact hinitB
  have hdec2 : c.decrypt (((mkFlagsSpec E (derive_key Rd bs.length pw)
      (bs.map (fixBlock 4)) 0).map Flag.encrypted_data).flatten) false =
      .ok (rstripZero ((bs.map (fixBlock 4)).flatten)) := by
    rw [hejoin]
    exact hdecF
  rw [decrypt_flags_step2 Rc flags' _ c _ hsort hinit2 hdec2]
  exact decryptLoop_spec bs E (derive_key Rd bs.length pw) 0 hne hblocks

theorem init_error_of {α : Type} (R : RandModel α) (pw : α) (L : Int)
    (h : L ≤ 0 ∨ 255 < L) :
    ∃ m, SimpleCrypter.init R pw L = .error (.valueError m) := by
  unfold SimpleCrypter.init
  by_cases h1 : L ≤ 0
  · rw [if_pos h1]
    exact ⟨_, rfl⟩
  · rw [if_neg h1, if_pos (by omega)]
    exact ⟨_, rfl⟩

theorem generate_flags_fix_error {α : Type} (Rd : RandModel α)
    (Rc : RandModel (List Nat)) (bs : List (List Nat)) (pw : α) (e : Err)
    (hz : ¬(bs.any (fun block => block.contains 0) = true))
    (hfe : fix_data 4 bs = .error e) :
    generate_flags Rd Rc bs pw = .error e := by
  unfold generate_flags
  rw [if_neg hz, hfe]

theorem generate_flags_init_error {α : Type} (Rd : RandModel α)
    (Rc : RandModel (List Nat)) (bs : List (List Nat)) (pw : α)
    (fixed : List (List Nat)) (e : Err)
    (hz : ¬(bs.any (fun block => block.contains 0) = true))
    (hfix : fix_data 4 bs = .ok fixed)
    (hie : SimpleCrypter.init Rc (derive_key Rd fixed.length pw)
      ((fixed.flatten.length : Nat) : Int) = .error e) :
    generate_flags Rd Rc bs pw = .error e := by
  rw [generate_flags_step Rd Rc bs pw fixed hz hfix, hie]

theorem decrypt_flags_init_error (Rc : RandModel (List Nat))
    (flags' flags : List Flag) (e : Err)
    (hsort : flags'.mergeSort flagLe = flags)
    (hie : SimpleCrypter.init Rc ((flags.map Flag.partial_password).flatten)
      (((flags.map Flag.encrypted_data).flatten.length : Nat) : Int) = .error e) :
    decrypt_flags Rc flags' = .error e := by
  unfold decrypt_flags
  rw [hsort, hie]

theorem generate_flags_ok_inv {α : Type} (Rd : RandModel α)
    (Rc : RandModel (List Nat)) (bs : List (List Nat)) (pw : α)
    (flags : List Flag) (h : generate_flags Rd Rc bs pw = .ok flags) :
    bs ≠ [] ∧ bs.length ≤ 63 ∧ ∀ b ∈ bs, b ≠ [] ∧ 0 ∉ b ∧ b.length ≤ 4 := by
  unfold generate_flags at h
  split at h
  · simp at h
  · rename_i hz
    split at h
    · simp at h
    · rename_i fixed hfix
      obtain ⟨hfeq, hle⟩ := fix_data_ok_inv bs fixed hfix
      subst hfeq
      split at h
      · simp at h
      · rename_i crypt hinit
        obtain ⟨hL0, hL255, -, -, hklen0, hkpos, hprm⟩ :=
          init_ok Rc _ _ crypt hinit
        have hL0' : 0 < ((bs.map (fixBlock 4)).flatten).length := by
          omega
        have hL255' : ((bs.map (fixBlock 4)).flatten).length ≤ 255 := by
          omega
        have hklen : crypt.keys.length =
            ((bs.map (fixBlock 4)).flatten).length := by
          rw [hklen0, Int.toNat_natCast]
        split at h
        · simp at h
        · rename_i E henc
          have hmod : ((bs.map (fixBlock 4)).flatten).length %
              crypt.keys.length = 0 := by
            rw [hklen]
            exact Nat.mod_self _
          obtain ⟨E2, henc2, hE2len, -, -⟩ :=
            crypter_roundtrip crypt hprm hkpos _ hmod true
          have hEeq : E = E2 := Except.ok.inj (henc.symm.trans henc2)
          have hElen : E.length = ((bs.map (fixBlock 4)).flatten).length := by
            rw [hEeq, hE2len]
          have h4n := flagLoop_ok_inv _ _ _ _ _ h
          rw [List.length_map] at h4n
          have hmle : ((bs.map (fixBlock 4)).flatten).length ≤ 4 * bs.length :=
            flatten_fix_le bs hle
          have hge : 4 * bs.length ≤ ((bs.map (fixBlock 4)).flatten).length := by
            omega
          have hnonempty : ∀ b ∈ bs, b ≠ [] :=
            nonempty_of_flatten_ge bs hle hge
          have hzero : ∀ b ∈ bs, 0 ∉ b := by
            intro b hb hmem
            apply hz
            rw [List.any_eq_true]
            exact ⟨b, hb, by simpa using hmem⟩
          refine ⟨?_, by omega,
            fun b hb => ⟨hnonempty b hb, hzero b hb, hle b hb⟩⟩
          intro hbs
          subst hbs
          simp at hL0'

/-- C2.  Whenever `generate_flags` succeeds, the emitted flags carry the
challenge ids `0, 1, ..., n-1` in input order, and `decrypt_flags` applied
to any permutation of them returns the original blocks in challenge-id
(input) order. -/
theorem C2_generate_decrypt {α : Type} (Rd : RandModel α)
    (Rc : RandModel (List Nat)) (bs : List (List Nat)) (pw : α)
    (flags flags' : List Flag)
    (hgen : generate_flags Rd Rc bs pw = .ok flags)
    (hperm : flags'.Perm flags) :
    decrypt_flags Rc flags' = .ok bs ∧
    flags.map Flag.challenge_id =
      (List.range bs.length).map (fun n : Nat => (n : Int)) := by
  obtain ⟨hne, h63, hblocks⟩ := generate_flags_ok_inv Rd Rc bs pw flags hgen
  obtain ⟨c, E, -, -, -, hgen2, hdec⟩ :=
    generate_structure Rd Rc bs pw hne h63 hblocks
  have hfe : flags = mkFlagsSpec E (derive_key Rd bs.length pw)
      (bs.map (fixBlock 4)) 0 :=
    Except.ok.inj (hgen.symm.trans hgen2)
  subst hfe
  refine ⟨hdec flags' hperm, ?_⟩
  rw [mkFlagsSpec_ids, List.range_eq_range']
  simp [List.length_map]

/-- Witness for C2 on the spec's own example: the two flags generated from
`[b"ABCD", b"EFGH"]` carry ids 0 and 1, and decrypting them in reversed
order restores `[b"ABCD", b"EFGH"]`. -/
theorem C2_generate_decrypt_witness :
    generate_flags (trivRand (List Nat)) (trivRand (List Nat))
      [[65, 66, 67, 68], [69, 70, 71, 72]] [] =
      .ok [⟨[65, 67, 65, 71], [0, 0], [1, 10], 0⟩,
        ⟨[65, 67, 65, 79], [0, 0], [1, 26], 1⟩] ∧
    decrypt_flags (trivRand (List Nat))
      [⟨[65, 67, 65, 79], [0, 0], [1, 26], 1⟩,
        ⟨[65, 67, 65, 71], [0, 0], [1, 10], 0⟩] =
      .ok [[65, 66, 67, 68], [69, 70, 71, 72]] ∧
    ([⟨[65, 67, 65, 71], [0, 0], [1, 10], 0⟩,
        ⟨[65, 67, 65, 79], [0, 0], [1, 26], 1⟩] : List Flag).map
        Flag.challenge_id = [0, 1] := by
  have hgen : generate_flags (trivRand (List Nat)) (trivRand (List Nat))
      [[65, 66, 67, 68], [69, 70, 71, 72]] [] =
      .ok [⟨[65, 67, 65, 71], [0, 0], [1, 10], 0⟩,
        ⟨[65, 67, 65, 79], [0, 0], [1, 26], 1⟩] := by decide
  have hperm : ([⟨[65, 67, 65, 79], [0, 0], [1, 26], 1⟩,
      ⟨[65, 67, 65, 71], [0, 0], [1, 10], 0⟩] : List Flag).Perm
      [⟨[65, 67, 65, 71], [0, 0], [1, 10], 0⟩,
        ⟨[65, 67, 65, 79], [0, 0], [1, 26], 1⟩] :=
    List.Perm.swap _ _ _
  exact ⟨hgen,
    (C2_generate_decrypt (trivRand (List Nat)) (trivRand (List Nat))
      [[65, 66, 67, 68], [69, 70, 71, 72]] [] _ _ hgen hperm).1,
    by decide⟩

/-- C3.  Whenever `generate_flags` succeeds on `n` blocks, the `i`-th
returned flag has `encrypted_data` equal to the 4-byte slice at offset
`4i` of the single-pass ciphertext of the concatenated padded blocks,
`partial_password` equal to the 2-byte slice at offset `2i` of the
derived keystream of length `2n`, `decrypted_data_checksum` equal to the
sum of the original unpadded block's bytes modulo `2^16` in 2 big-endian
bytes, and `challenge_id` equal to `i`. -/
theorem C3_flag_fields {α : Type} (Rd : RandModel α)
    (Rc : RandModel (List Nat)) (bs : List (List Nat)) (pw : α)
    (flags : List Flag) (hgen : generate_flags Rd Rc bs pw = .ok flags) :
    ∃ c E, SimpleCrypter.init Rc (derive_key Rd bs.length pw)
        (((bs.map (fixBlock 4)).flatten.length : Nat) : Int) = .ok c ∧
      c.encrypt (bs.map (fixBlock 4)).flatten true = .ok E ∧
      (derive_key Rd bs.length pw).length = 2 * bs.length ∧
      flags.length = bs.length ∧
      ∀ i, i < bs.length →
        flags[i]? = some ⟨(E.drop (4 * i)).take 4,
          ((derive_key Rd bs.length pw).drop (2 * i)).take 2,
          toBytesBE 2 ((bs.getD i []).sum % 65536),
          ((i : Nat) : Int)⟩ := by
  obtain ⟨hne, h63, hblocks⟩ := generate_flags_ok_inv Rd Rc bs pw flags hgen
  obtain ⟨c, E, hinit, henc, hElen, hgen2, -⟩ :=
    generate_structure Rd Rc bs pw hne h63 hblocks
  have hfe : flags = mkFlagsSpec E (derive_key Rd bs.length pw)
      (bs.map (fixBlock 4)) 0 :=
    Except.ok.inj (hgen.symm.trans hgen2)
  subst hfe
  have hkslen : (derive_key Rd bs.length pw).length = 2 * bs.length := by
    unfold derive_key
    rw [Rd.choices_length]
    omega
  refine ⟨c, E, hinit, henc, hkslen, ?_, ?_⟩
  · rw [mkFlagsSpec_length]
    exact List.length_map _ _
  · intro i hi
    rw [mkFlagsSpec_getElem E (derive_key Rd bs.length pw)
      (bs.map (fixBlock 4)) 0 i (by simpa [List.length_map] using hi)]
    have hpart : (bs.map (fixBlock 4)).getD i [] = fixBlock 4 (bs.getD i []) := by
      rw [List.getD_eq_getElem?_getD, List.getD_eq_getElem?_getD,
        List.getElem?_map, List.getElem?_eq_getElem hi]
      rfl
    rw [hpart, fixBlock_eq, checksum_append_zeros, checksum_two_eq_mod]
    simp

/-- Witness for C3 at the two-block example. -/
theorem C3_flag_fields_witness :
    ∃ c E, SimpleCrypter.init (trivRand (List Nat))
        (derive_key (trivRand (List Nat))
          ([[65, 66, 67, 68], [69, 70, 71, 72]] : List (List Nat)).length [])
        (((([[65, 66, 67, 68], [69, 70, 71, 72]] : List (List Nat)).map
          (fixBlock 4)).flatten.length : Nat) : Int) = .ok c ∧
      c.encrypt (([[65, 66, 67, 68], [69, 70, 71, 72]] : List (List Nat)).map
        (fixBlock 4)).flatten true = .ok E ∧
      (derive_key (trivRand (List Nat))
        ([[65, 66, 67, 68], [69, 70, 71, 72]] : List (List Nat)).length []).length =
        2 * ([[65, 66, 67, 68], [69, 70, 71, 72]] : List (List Nat)).length ∧
      ([⟨[65, 67, 65, 71], [0, 0], [1, 10], 0⟩,
        ⟨[65, 67, 65, 79], [0, 0], [1, 26], 1⟩] : List Flag).length =
        ([[65, 66, 67, 68], [69, 70, 71, 72]] : List (List Nat)).length ∧
      ∀ i, i < ([[65, 66, 67, 68], [69, 70, 71, 72]] : List (List Nat)).length →
        ([⟨[65, 67, 65, 71], [0, 0], [1, 10], 0⟩,
          ⟨[65, 67, 65, 79], [0, 0], [1, 26], 1⟩] : List Flag)[i]? =
          some ⟨(E.drop (4 * i)).take 4,
            ((derive_key (trivRand (List Nat))
              ([[65, 66, 67, 68], [69, 70, 71, 72]] : List (List Nat)).length
              []).drop (2 * i)).take 2,
            toBytesBE 2 ((([[65, 66, 67, 68], [69, 70, 71, 72]] :
              List (List Nat)).getD i []).sum % 65536),
            ((i : Nat) : Int)⟩ :=
  C3_flag_fields (trivRand (List Nat)) (trivRand (List Nat))
    [[65, 66, 67, 68], [69, 70, 71, 72]] []
    [⟨[65, 67, 65, 71], [0, 0], [1, 10], 0⟩,
      ⟨[65, 67, 65, 79], [0, 0], [1, 26], 1⟩] (by decide)

/-- C9.  `generate_flags` fails for every input of more than 63 blocks:
the shared cipher is keyed with key length equal to the padded
concatenation's length, and key lengths above 255 are unconstructible
because the keys are drawn without replacement from the 255-value
population `range(0xFF)` — so `SimpleCrypter` construction fails for
every requested length above 255, and with it any 64-block-or-larger
generation (any avenue that dodges the cipher bound, such as empty
blocks, instead exhausts the ciphertext and fails the flag width
check). -/
theorem C9_generate_large_fails {α : Type} (Rd : RandModel α)
    (Rc : RandModel (List Nat)) (bs : List (List Nat)) (pw : α)
    (h : 63 < bs.length) :
    (∃ e, generate_flags Rd Rc bs pw = .error e) ∧
    (∀ pw2 : List Nat, ∀ L : Int, 255 < L →
      ∃ m, SimpleCrypter.init Rc pw2 L = .error (.valueError m)) := by
  constructor
  · by_cases hz : bs.any (fun block => block.contains 0) = true
    · refine ⟨.valueError "NUL character is not allowed to appear in data.", ?_⟩
      unfold generate_flags
      rw [if_pos hz]
    · by_cases hle : ∀ b ∈ bs, b.length ≤ 4
      · have hfix : fix_data 4 bs = .ok (bs.map (fixBlock 4)) :=
          fix_data_ok bs hle
        have hmle : ((bs.map (fixBlock 4)).flatten).length ≤ 4 * bs.length :=
          flatten_fix_le bs hle
        rcases Nat.eq_zero_or_pos ((bs.map (fixBlock 4)).flatten).length with
          hm0 | hmpos
        · obtain ⟨m, hie⟩ := init_error_of Rc
            (derive_key Rd (bs.map (fixBlock 4)).length pw)
            (((bs.map (fixBlock 4)).flatten.length : Nat) : Int)
            (Or.inl (by omega))
          exact ⟨_, generate_flags_init_error Rd Rc bs pw _ _ hz hfix hie⟩
        · by_cases hm255 : 255 < ((bs.map (fixBlock 4)).flatten).length
          · obtain ⟨m, hie⟩ := init_error_of Rc
              (derive_key Rd (bs.map (fixBlock 4)).length pw)
              (((bs.map (fixBlock 4)).flatten.length : Nat) : Int)
              (Or.inr (by omega))
            exact ⟨_, generate_flags_init_error Rd Rc bs pw _ _ hz hfix hie⟩
          · have hinit : SimpleCrypter.init Rc
                (derive_key Rd (bs.map (fixBlock 4)).length pw)
                (((bs.map (fixBlock 4)).flatten.length : Nat) : Int) =
                .ok ⟨Rc.sample1 (derive_key Rd (bs.map (fixBlock 4)).length pw)
                  ((bs.map (fixBlock 4)).flatten).length,
                  Rc.sample2 (derive_key Rd (bs.map (fixBlock 4)).length pw)
                  ((bs.map (fixBlock 4)).flatten).length⟩ :=
              init_ok_of Rc _ _ hmpos (by omega)
            obtain ⟨hL0, hL255, -, -, hklen0, hkpos, hprm⟩ :=
              init_ok Rc _ _ _ hinit
            have hklen : (⟨Rc.sample1 (derive_key Rd
                (bs.map (fixBlock 4)).length pw)
                ((bs.map (fixBlock 4)).flatten).length,
                Rc.sample2 (derive_key Rd (bs.map (fixBlock 4)).length pw)
                ((bs.map (fixBlock 4)).flatten).length⟩ :
                SimpleCrypter).keys.length =
                ((bs.map (fixBlock 4)).flatten).length := by
              rw [hklen0, Int.toNat_natCast]
            have hmod : ((bs.map (fixBlock 4)).flatten).length %
                (⟨Rc.sample1 (derive_key Rd (bs.map (fixBlock 4)).length pw)
                  ((bs.map (fixBlock 4)).flatten).length,
                  Rc.sample2 (derive_key Rd (bs.map (fixBlock 4)).length pw)
                  ((bs.map (fixBlock 4)).flatten).length⟩ :
                  SimpleCrypter).keys.length = 0 := by
              rw [hklen]
              exact Nat.mod_self _
            obtain ⟨E, henc, hElen, -, -⟩ :=
              crypter_roundtrip _ hprm hkpos
                ((bs.map (fixBlock 4)).flatten) hmod true
            rcases hloop : flagLoop E
                (derive_key Rd (bs.map (fixBlock 4)).length pw)
                (bs.map (fixBlock 4)) 0 with e | fs
            · exact ⟨e, by
                rw [generate_flags_step3 Rd Rc bs pw (bs.map (fixBlock 4)) _ E
                  hz hfix hinit henc, hloop]⟩
            · exfalso
              have h4n := flagLoop_ok_inv _ _ _ _ _ hloop
              rw [List.length_map] at h4n
              omega
      · push_neg at hle
        obtain ⟨b, hb, hbl⟩ := hle
        obtain ⟨e, hfe⟩ := fix_data_error bs ⟨b, hb, hbl⟩
        exact ⟨e, generate_flags_fix_error Rd Rc bs pw e hz hfe⟩
  · intro pw2 L hL
    unfold SimpleCrypter.init
    rw [if_neg (by omega), if_pos hL]
    exact ⟨_, rfl⟩

/-- Witness for C9 at a concrete 64-block input and key length 256. -/
theorem C9_generate_large_fails_witness :
    (∃ e, generate_flags (trivRand (List Nat)) (trivRand (List Nat))
      (List.replicate 64 [1]) [] = .error e) ∧
    (∃ m, SimpleCrypter.init (trivRand (List Nat)) [] 256 =
      .error (.valueError m)) :=
  ⟨(C9_generate_large_fails (trivRand (List Nat)) (trivRand (List Nat))
      (List.replicate 64 [1]) [] (by decide)).1,
   (C9_generate_large_fails (trivRand (List Nat)) (trivRand (List Nat))
      (List.replicate 64 [1]) [] (by decide)).2 [] 256 (by decide)⟩

/-- C10.  On an empty collection both operations fail with the structural
`ValueError` kind rather than returning an empty list: the concatenated
buffer is empty, so the shared cipher is requested with key length 0,
which construction rejects. -/
theorem C10_empty_inputs {α : Type} (Rd : RandModel α)
    (Rc : RandModel (List Nat)) (pw : α) :
    (∃ m, generate_flags Rd Rc [] pw = .error (.valueError m)) ∧
    (∃ m, decrypt_flags Rc [] = .error (.valueError m)) := by
  constructor
  · obtain ⟨m, hie⟩ := init_error_of Rc
      (derive_key Rd ([] : List (List Nat)).length pw)
      (((([] : List (List Nat)).flatten.length : Nat)) : Int)
      (Or.inl (by simp))
    exact ⟨m, generate_flags_init_error Rd Rc [] pw [] _
      (by simp) rfl hie⟩
  · have hsort : ([] : List Flag).mergeSort flagLe = [] := by
      simp
    obtain ⟨m, hie⟩ := init_error_of Rc
      ((([] : List Flag).map Flag.partial_password).flatten)
      (((([] : List Flag).map Flag.encrypted_data).flatten.length : Nat) : Int)
      (Or.inl (by simp))
    exact ⟨m, decrypt_flags_init_error Rc [] [] _ hsort hie⟩

/-- The invariant Python's `bytes` type provides: every element is a byte
value. -/
def isBytes (l : List Nat) : Prop := ∀ x ∈ l, x < 256

/-- A `ValidatableFlag` value as the validating constructor admits it:
structurally valid, carrying the fixed signature and the recomputed hash
commitment, with byte-valued contents. -/
def ValidatableFlag.WellFormed (S : Sha1Model) (v : ValidatableFlag) : Prop :=
  v.toFlag.Valid ∧ v.signature = VALIDATABLE_FLAG_SIGNATURE ∧
  v.expected_hash = flagHash S v.toFlag ∧
  isBytes v.encrypted_data ∧ isBytes v.partial_password ∧
  isBytes v.decrypted_data_checksum

theorem make_parse_roundtrip (b1 b2 b3 b4 b5 : List Nat)
    (h1 : b1.length = 4) (h2 : b2.length = 2) (h3 : b3.length = 2)
    (h4 : b4.length = 2) (h5 : b5.length = 6)
    (hb1 : ∀ x ∈ b1, x < 256) (hb2 : ∀ x ∈ b2, x < 256)
    (hb3 : ∀ x ∈ b3, x < 256) (hb4 : ∀ x ∈ b4, x < 256)
    (hb5 : ∀ x ∈ b5, x < 256) :
    make_uuid_like (b1, b2, b3, b4, b5) =
      .ok (joinSep '-' [bytesToHex b1, bytesToHex b2, bytesToHex b3,
        bytesToHex b4, bytesToHex b5]) ∧
    parse_uuid_like (joinSep '-' [bytesToHex b1, bytesToHex b2, bytesToHex b3,
      bytesToHex b4, bytesToHex b5]) = .ok (b1, b2, b3, b4, b5) := by
  have hno : ∀ l : List Nat, ∀ c ∈ bytesToHex l, c ≠ '-' :=
    bytesToHex_forall _ (fun n => (hexDigitChar_props n).1)
  have hhex : ∀ l : List Nat, ∀ c ∈ bytesToHex l, isHexDigit c = true :=
    bytesToHex_forall _ (fun n => (hexDigitChar_props n).2.1)
  constructor
  · unfold make_uuid_like
    rw [if_pos ⟨h1, h2, h3, h4, h5⟩]
  · rw [parse_uuid_like_step _ (bytesToHex b1) (bytesToHex b2) (bytesToHex b3)
      (bytesToHex b4) (bytesToHex b5)
      (pySplit_joinSep5 _ _ _ _ _ (hno b1) (hno b2) (hno b3) (hno b4) (hno b5))]
    rw [if_pos (by simp [bytesToHex_length, h1, h2, h3, h4, h5])]
    rw [if_pos (by
      simp only [List.all_eq_true, List.mem_append]
      rintro c ((((hc | hc) | hc) | hc) | hc)
      · exact hhex b1 c hc
      · exact hhex b2 c hc
      · exact hhex b3 c hc
      · exact hhex b4 c hc
      · exact hhex b5 c hc)]
    rw [fromHex_bytesToHex b1 hb1, fromHex_bytesToHex b2 hb2,
      fromHex_bytesToHex b3 hb3, fromHex_bytesToHex b4 hb4,
      fromHex_bytesToHex b5 hb5]

theorem pyStartsWith_append : ∀ p t : List Char, pyStartsWith p (p ++ t) = true
  | [], t => by cases t <;> rfl
  | c :: cs, t => by
    simp [pyStartsWith, pyStartsWith_append cs t]

theorem pyEndsWith_concat (c : Char) (t : List Char) :
    pyEndsWith [c] (t ++ [c]) = true := by
  unfold pyEndsWith
  rw [List.reverse_append]
  simp [pyStartsWith]

/-- Wrapping any well-formed validatable flag and unwrapping the result
restores the flag exactly. -/
theorem unwrap_wrap_core (S : Sha1Model) (v : ValidatableFlag)
    (hwf : v.WellFormed S) :
    ∃ u, make_uuid_like v.asUuid = .ok u ∧
      unwrap_flag S ("flag\x7b".toList ++ u ++ ['\x7d']) = .ok v := by
  obtain ⟨⟨hed, hpp, hcs, hid0, hid255⟩, hsig, heh, hbed, hbpp, hbcs⟩ := hwf
  have hehlen : v.expected_hash.length = 6 := by
    rw [heh]
    simp [flagHash, List.length_take, S.digest_length]
  have hbeh : ∀ x ∈ v.expected_hash, x < 256 := by
    intro x hx
    rw [heh] at hx
    exact S.digest_mem _ x (List.mem_of_mem_take hx)
  have hbb4 : ∀ x ∈ [v.signature.toNat, v.challenge_id.toNat], x < 256 := by
    intro x hx
    rcases List.mem_cons.mp hx with rfl | hx2
    · rw [hsig]
      decide
    · have : x = v.challenge_id.toNat := by simpa using hx2
      subst this
      omega
  obtain ⟨hmk, hparse⟩ := make_parse_roundtrip v.encrypted_data
    v.partial_password v.decrypted_data_checksum
    [v.signature.toNat, v.challenge_id.toNat] v.expected_hash
    hed hpp hcs rfl hehlen hbed hbpp hbcs hbb4 hbeh
  refine ⟨_, hmk, ?_⟩
  unfold unwrap_flag
  have hA : pyStartsWith "flag\x7b".toList
      ("flag\x7b".toList ++ (joinSep '-' [bytesToHex v.encrypted_data,
        bytesToHex v.partial_password, bytesToHex v.decrypted_data_checksum,
        bytesToHex [v.signature.toNat, v.challenge_id.toNat],
        bytesToHex v.expected_hash] ++ ['\x7d'])) = true := by
    exact pyStartsWith_append _ _
  have hB : pyEndsWith "\x7d".toList
      ("flag\x7b".toList ++ joinSep '-' [bytesToHex v.encrypted_data,
        bytesToHex v.partial_password, bytesToHex v.decrypted_data_checksum,
        bytesToHex [v.signature.toNat, v.challenge_id.toNat],
        bytesToHex v.expected_hash] ++ ['\x7d']) = true := by
    exact pyEndsWith_concat '\x7d' _
  rw [if_neg (by
    rw [List.append_assoc] at hB ⊢
    rw [hA, hB]
    simp)]
  have hdrop : (("flag\x7b".toList ++ joinSep '-' [bytesToHex v.encrypted_data,
      bytesToHex v.partial_password, bytesToHex v.decrypted_data_checksum,
      bytesToHex [v.signature.toNat, v.challenge_id.toNat],
      bytesToHex v.expected_hash] ++ ['\x7d']).drop 5) =
      joinSep '-' [bytesToHex v.encrypted_data, bytesToHex v.partial_password,
        bytesToHex v.decrypted_data_checksum,
        bytesToHex [v.signature.toNat, v.challenge_id.toNat],
        bytesToHex v.expected_hash] ++ ['\x7d'] := by
    rw [List.append_assoc]
    exact List.drop_left' (by decide)
  rw [hdrop, List.dropLast_concat]
  unfold validate_uuid_like_flag translate_from_uuid_like
  rw [hparse]
  show ValidatableFlag.make S v.encrypted_data v.partial_password
    v.decrypted_data_checksum ((v.challenge_id.toNat : Nat) : Int)
    v.expected_hash ((v.signature.toNat : Nat) : Int) = .ok v
  rw [Int.toNat_of_nonneg hid0, hsig,
    (by decide : (((VALIDATABLE_FLAG_SIGNATURE.toNat : Nat)) : Int) =
      VALIDATABLE_FLAG_SIGNATURE)]
  rw [ValidatableFlag.make_step S _ _ _ _ _ _
    ⟨v.encrypted_data, v.partial_password, v.decrypted_data_checksum,
      v.challenge_id⟩
    (Flag.make_ok _ _ _ _ hed hpp hcs hid0 hid255)]
  rw [if_neg (by omega), if_neg (by simp)]
  rw [if_neg (by
    simp only [ne_eq, not_not]
    exact heh.symm)]
  rw [← hsig]

instance (l : List Nat) : Decidable (isBytes l) := by
  unfold isBytes
  infer_instance

instance (S : Sha1Model) (v : ValidatableFlag) : Decidable (v.WellFormed S) := by
  unfold ValidatableFlag.WellFormed isBytes
  infer_instance

/-- C7, counterexample.  `unwrap_flag(wrap_flag(flag)) == flag` fails for a
structurally valid base `Flag`: the unwrapped value is a
`ValidatableFlag`, and Python dataclass equality between a `Flag` and a
`ValidatableFlag` instance is `False` (distinct classes), even though the
base fields coincide. -/
theorem C7_counterexample :
    Flag.Valid ⟨[1, 2, 3, 4], [5, 6], [7, 8], 9⟩ ∧
    wrap_flag trivSha1 (.base ⟨[1, 2, 3, 4], [5, 6], [7, 8], 9⟩) =
      .ok "flag\x7b01020304-0506-0708-fa09-000000000000\x7d".toList ∧
    unwrap_flag trivSha1
      "flag\x7b01020304-0506-0708-fa09-000000000000\x7d".toList =
      .ok ⟨⟨[1, 2, 3, 4], [5, 6], [7, 8], 9⟩, [0, 0, 0, 0, 0, 0], 0xFA⟩ ∧
    pyFlagEq
      (.validatable ⟨⟨[1, 2, 3, 4], [5, 6], [7, 8], 9⟩, [0, 0, 0, 0, 0, 0], 0xFA⟩)
      (.base ⟨[1, 2, 3, 4], [5, 6], [7, 8], 9⟩) = false := by
  refine ⟨by decide, by decide, by decide, by decide⟩

/-- C7, amended.  For every well-formed `ValidatableFlag`,
`unwrap_flag(wrap_flag(v)) == v` holds exactly; for a structurally valid
base `Flag` the round trip succeeds and preserves all four base fields,
but the result is a `ValidatableFlag` and therefore not `==` to the base
flag under dataclass equality; `wrap_flag` produces `flag{<uuid-like>}`
and `unwrap_flag` fails for any string not carrying the exact literal
prefix `flag{` and suffix `}`. -/
theorem C7_wrap_unwrap (S : Sha1Model) :
    (∀ v : ValidatableFlag, v.WellFormed S →
      ∃ s, wrap_flag S (.validatable v) = .ok s ∧
        unwrap_flag S s = .ok v ∧
        pyFlagEq (.validatable v) (.validatable v) = true) ∧
    (∀ f : Flag, f.Valid → isBytes f.encrypted_data →
      isBytes f.partial_password → isBytes f.decrypted_data_checksum →
      ∃ s v', wrap_flag S (.base f) = .ok s ∧ unwrap_flag S s = .ok v' ∧
        v'.toFlag = f ∧ pyFlagEq (.validatable v') (.base f) = false) ∧
    (∀ s : List Char, ¬(pyStartsWith "flag\x7b".toList s = true ∧
        pyEndsWith "\x7d".toList s = true) →
      ∃ m, unwrap_flag S s = .error (.valueError m)) := by
  refine ⟨?_, ?_, ?_⟩
  · intro v hwf
    obtain ⟨u, hmk, hunwrap⟩ := unwrap_wrap_core S v hwf
    have hwrap : wrap_flag S (.validatable v) =
        .ok ("flag\x7b".toList ++ u ++ ['\x7d']) := by
      show (match make_uuid_like v.asUuid with
        | Except.error e => Except.error e
        | Except.ok u => Except.ok ("flag\x7b".toList ++ u ++ ['\x7d'])) =
        Except.ok ("flag\x7b".toList ++ u ++ ['\x7d'])
      rw [hmk]
    exact ⟨_, hwrap, hunwrap, by simp [pyFlagEq]⟩
  · intro f hf hbed hbpp hbcs
    have hfg := from_general_spec S f hf
    have hwf : (⟨f, flagHash S f, VALIDATABLE_FLAG_SIGNATURE⟩ :
        ValidatableFlag).WellFormed S :=
      ⟨hf, rfl, rfl, hbed, hbpp, hbcs⟩
    obtain ⟨u, hmk, hunwrap⟩ := unwrap_wrap_core S _ hwf
    have hwrap : wrap_flag S (.base f) =
        .ok ("flag\x7b".toList ++ u ++ ['\x7d']) := by
      show (match (match ValidatableFlag.from_general S f with
          | Except.error e => Except.error e
          | Except.ok v => make_uuid_like v.asUuid) with
        | Except.error e => Except.error e
        | Except.ok u => Except.ok ("flag\x7b".toList ++ u ++ ['\x7d'])) =
        Except.ok ("flag\x7b".toList ++ u ++ ['\x7d'])
      rw [hfg]
      show (match make_uuid_like (⟨f, flagHash S f, VALIDATABLE_FLAG_SIGNATURE⟩ :
          ValidatableFlag).asUuid with
        | Except.error e => Except.error e
        | Except.ok u => Except.ok ("flag\x7b".toList ++ u ++ ['\x7d'])) =
        Except.ok ("flag\x7b".toList ++ u ++ ['\x7d'])
      rw [hmk]
    exact ⟨_, _, hwrap, hunwrap, rfl, by simp [pyFlagEq]⟩
  · intro s hno
    unfold unwrap_flag
    rw [if_pos (by
      rcases hA : pyStartsWith "flag\x7b".toList s <;>
        rcases hB : pyEndsWith "\x7d".toList s <;> simp_all)]
    exact ⟨_, rfl⟩

/-- Witness for C7's amended theorem at concrete flags and a concrete
non-wrapped string. -/
theorem C7_wrap_unwrap_witness :
    (∃ s, wrap_flag trivSha1 (.validatable
        ⟨⟨[1, 2, 3, 4], [5, 6], [7, 8], 9⟩, [0, 0, 0, 0, 0, 0], 0xFA⟩) =
        .ok s ∧
      unwrap_flag trivSha1 s =
        .ok ⟨⟨[1, 2, 3, 4], [5, 6], [7, 8], 9⟩, [0, 0, 0, 0, 0, 0], 0xFA⟩ ∧
      pyFlagEq
        (.validatable ⟨⟨[1, 2, 3, 4], [5, 6], [7, 8], 9⟩, [0, 0, 0, 0, 0, 0], 0xFA⟩)
        (.validatable ⟨⟨[1, 2, 3, 4], [5, 6], [7, 8], 9⟩, [0, 0, 0, 0, 0, 0], 0xFA⟩) =
        true) ∧
    (∃ s v', wrap_flag trivSha1 (.base ⟨[1, 2, 3, 4], [5, 6], [7, 8], 9⟩) =
        .ok s ∧
      unwrap_flag trivSha1 s = .ok v' ∧
      v'.toFlag = ⟨[1, 2, 3, 4], [5, 6], [7, 8], 9⟩ ∧
      pyFlagEq (.validatable v') (.base ⟨[1, 2, 3, 4], [5, 6], [7, 8], 9⟩) =
        false) ∧
    (∃ m, unwrap_flag trivSha1 "not-a-flag".toList =
      .error (.valueError m)) :=
  ⟨(C7_wrap_unwrap trivSha1).1
      ⟨⟨[1, 2, 3, 4], [5, 6], [7, 8], 9⟩, [0, 0, 0, 0, 0, 0], 0xFA⟩ (by decide),
   (C7_wrap_unwrap trivSha1).2.1 ⟨[1, 2, 3, 4], [5, 6], [7, 8], 9⟩
      (by decide) (by decide) (by decide) (by decide),
   (C7_wrap_unwrap trivSha1).2.2 "not-a-flag".toList (by decide)⟩

end Anura
